import Mathlib

/-!
Verification of the HTTP Capsule Protocol codec of quiche
(src/quiche/common/capsule.cc).

Bytes are modelled as natural numbers taken modulo 256 at the points where
the C++ code manipulates `uint8_t`; byte strings are lists of naturals.
The streaming parser `CapsuleParser`, the serializer
`SerializeCapsuleWithStatus`, and the capsule data model are embedded from
the source file.  The helper layers that capsule.cc uses but that are not
part of the provided sources (QuicheDataReader / QuicheDataWriter varint
and fixed-width primitives, QuicheIpAddress, QuicheIpPrefix, and the
capsule type codes of capsule.h) are modelled from the specification, as
indicated in their doc comments.
-/

namespace Quiche

/-- Big-endian byte encoding: `beBytes n v` is the `n`-byte big-endian
encoding of `v % 2 ^ (8 * n)`.  Models the fixed-width big-endian writes
of QuicheDataWriter (`WriteUInt8`, `WriteUInt32`, varint bodies). -/
def beBytes : Nat → Nat → List Nat
  | 0, _ => []
  | n + 1, v => v / 2 ^ (8 * n) % 256 :: beBytes n v

/-- Big-endian value of a byte list, as assembled by the corresponding
QuicheDataReader reads. -/
def beValue : List Nat → Nat
  | [] => 0
  | b :: bs => b % 256 * 256 ^ bs.length + beValue bs

/-- Modelled from the spec: RFC 9000 §16 variable-length integer encoding
used by QuicheDataWriter::WriteVarInt62 (not under src/).  Canonical
(shortest) form; values of 2^62 or more are rejected. -/
def writeVarInt62 (v : Nat) : Option (List Nat) :=
  if v < 2 ^ 6 then some (beBytes 1 v)
  else if v < 2 ^ 14 then some (beBytes 2 (2 ^ 14 + v))
  else if v < 2 ^ 30 then some (beBytes 4 (2 ^ 31 + v))
  else if v < 2 ^ 62 then some (beBytes 8 (3 * 2 ^ 62 + v))
  else none

/-- Total canonical varint encoder for values below 2^62 (the partial
encoder `writeVarInt62` with an empty default).  Used to build concrete
wire images in theorem statements. -/
def writeVar (v : Nat) : List Nat := (writeVarInt62 v).getD []

/-- Modelled from the spec: QuicheDataReader::ReadVarInt62 (not under
src/).  The top two bits of the first byte select a total length of 1, 2,
4 or 8 bytes; the remaining bits form a big-endian unsigned integer.  A
short read returns `none` and consumes nothing; non-minimal encodings are
accepted. -/
def readVarInt62 : List Nat → Option (Nat × List Nat)
  | [] => none
  | b :: rest =>
    let n := 2 ^ (b % 256 / 64) - 1
    if rest.length < n then none
    else some (b % 256 % 64 * 256 ^ n + beValue (rest.take n), rest.drop n)

/-- Modelled from the spec: QuicheDataReader::ReadUInt8 (not under src/). -/
def readUInt8 : List Nat → Option (Nat × List Nat)
  | [] => none
  | b :: rest => some (b % 256, rest)

/-- Modelled from the spec: QuicheDataReader::ReadUInt32, big-endian (not
under src/). -/
def readUInt32 (bs : List Nat) : Option (Nat × List Nat) :=
  if bs.length < 4 then none else some (beValue (bs.take 4), bs.drop 4)

/-- Modelled from the spec: QuicheDataReader::ReadStringPiece, a read of
exactly `n` bytes (not under src/). -/
def readStringPiece (n : Nat) (bs : List Nat) : Option (List Nat × List Nat) :=
  if bs.length < n then none else some (bs.take n, bs.drop n)

/-- Modelled from the spec: QuicheDataReader::ReadStringPieceVarInt62 (not
under src/): a varint length followed by that many bytes. -/
def readStringPieceVarInt62 (bs : List Nat) : Option (List Nat × List Nat) :=
  match readVarInt62 bs with
  | none => none
  | some (len, rest) => readStringPiece len rest

theorem beBytes_length (n v : Nat) : (beBytes n v).length = n := by
  induction n with
  | zero => rfl
  | succ n ih => simp [beBytes, ih]

theorem beValue_beBytes (n v : Nat) : beValue (beBytes n v) = v % 2 ^ (8 * n) := by
  induction n with
  | zero => simp [beBytes, beValue, Nat.mod_one]
  | succ n ih =>
    have hmm : v / 2 ^ (8 * n) % 256 % 256 = v / 2 ^ (8 * n) % 256 :=
      Nat.mod_mod_of_dvd _ dvd_rfl
    have hpow : (256 : Nat) ^ n = 2 ^ (8 * n) := by
      rw [show (256 : Nat) = 2 ^ 8 from rfl, ← pow_mul]
    have hsucc : (2 : Nat) ^ (8 * (n + 1)) = 2 ^ (8 * n) * 256 := by
      rw [Nat.mul_succ, pow_add]; rfl
    rw [beBytes, beValue, beBytes_length, ih, hmm, hpow, hsucc, Nat.mod_mul]
    ring

theorem readUInt8_cons (b : Nat) (rest : List Nat) :
    readUInt8 (b :: rest) = some (b % 256, rest) := rfl

theorem readVarInt62_rest_lt {bs : List Nat} {v : Nat} {rest : List Nat}
    (h : readVarInt62 bs = some (v, rest)) : rest.length < bs.length := by
  cases bs with
  | nil => simp [readVarInt62] at h
  | cons b t =>
    simp only [readVarInt62] at h
    split at h
    · exact absurd h (by simp)
    · simp only [Option.some.injEq, Prod.mk.injEq] at h
      have : rest = t.drop (2 ^ (b % 256 / 64) - 1) := h.2.symm
      subst this
      simp only [List.length_drop, List.length_cons]
      omega

theorem readUInt8_rest_lt {bs : List Nat} {x : Nat} {rest : List Nat}
    (h : readUInt8 bs = some (x, rest)) : rest.length < bs.length := by
  cases bs with
  | nil => simp [readUInt8] at h
  | cons b t =>
    simp only [readUInt8, Option.some.injEq, Prod.mk.injEq] at h
    simp [← h.2]

theorem readStringPiece_rest_le {n : Nat} {bs s rest : List Nat}
    (h : readStringPiece n bs = some (s, rest)) : rest.length ≤ bs.length := by
  simp only [readStringPiece] at h
  split at h
  · exact absurd h (by simp)
  · simp only [Option.some.injEq, Prod.mk.injEq] at h
    have : rest = bs.drop n := h.2.symm
    subst this
    simp [List.length_drop]

/-- The first byte of a canonical varint determines the total encoded
length. -/
theorem writeVarInt62_shape {v : Nat} {b : List Nat}
    (h : writeVarInt62 v = some b) :
    ∃ b0 brest, b = b0 :: brest ∧ b0 < 256 ∧
      brest.length = 2 ^ (b0 / 64) - 1 ∧ brest.length + 1 = b.length := by
  unfold writeVarInt62 at h
  split at h
  · injection h with h
    subst h
    refine ⟨v / 2 ^ (8 * 0) % 256, beBytes 0 v, rfl,
      Nat.mod_lt _ (by norm_num), ?_, by simp [beBytes_length]⟩
    have e : v / 2 ^ (8 * 0) % 256 / 64 = 0 := by norm_num; omega
    rw [e, beBytes_length]
    norm_num
  · rename_i h1
    split at h
    · injection h with h
      subst h
      refine ⟨(2 ^ 14 + v) / 2 ^ (8 * 1) % 256, beBytes 1 (2 ^ 14 + v), rfl,
        Nat.mod_lt _ (by norm_num), ?_, by simp [beBytes_length]⟩
      have e : (2 ^ 14 + v) / 2 ^ (8 * 1) % 256 / 64 = 1 := by norm_num; omega
      rw [e, beBytes_length]
      norm_num
    · rename_i h2
      split at h
      · injection h with h
        subst h
        refine ⟨(2 ^ 31 + v) / 2 ^ (8 * 3) % 256, beBytes 3 (2 ^ 31 + v), rfl,
          Nat.mod_lt _ (by norm_num), ?_, by simp [beBytes_length]⟩
        have e : (2 ^ 31 + v) / 2 ^ (8 * 3) % 256 / 64 = 2 := by norm_num; omega
        rw [e, beBytes_length]
        norm_num
      · rename_i h3
        split at h
        · injection h with h
          subst h
          refine ⟨(3 * 2 ^ 62 + v) / 2 ^ (8 * 7) % 256, beBytes 7 (3 * 2 ^ 62 + v), rfl,
            Nat.mod_lt _ (by norm_num), ?_, by simp [beBytes_length]⟩
          have e : (3 * 2 ^ 62 + v) / 2 ^ (8 * 7) % 256 / 64 = 3 := by norm_num; omega
          rw [e, beBytes_length]
          norm_num
        · exact absurd h (by simp)

theorem writeVarInt62_lt {v : Nat} {b : List Nat}
    (h : writeVarInt62 v = some b) : v < 2 ^ 62 := by
  unfold writeVarInt62 at h
  split_ifs at h <;> first
  | omega
  | simp at h

theorem writeVarInt62_isSome {v : Nat} (h : v < 2 ^ 62) :
    ∃ b, writeVarInt62 v = some b := by
  unfold writeVarInt62
  split_ifs <;> first
  | exact ⟨_, rfl⟩
  | omega

theorem writeVarInt62_ne_nil {v : Nat} {b : List Nat}
    (h : writeVarInt62 v = some b) : b ≠ [] := by
  obtain ⟨b0, brest, rfl, -⟩ := writeVarInt62_shape h
  simp

/-- Reading a varint whose trailing bytes are exactly present. -/
theorem readVarInt62_cons (b0 : Nat) (rest tail : List Nat)
    (hb : b0 < 256)
    (hlen : rest.length = 2 ^ (b0 / 64) - 1) :
    readVarInt62 (b0 :: (rest ++ tail)) =
      some (b0 % 64 * 256 ^ rest.length + beValue rest, tail) := by
  have hb' : b0 % 256 = b0 := Nat.mod_eq_of_lt hb
  simp only [readVarInt62, hb']
  rw [if_neg (by simp [List.length_append]; omega)]
  rw [← hlen, List.take_left, List.drop_left]

/-- Round trip of the varint codec: a canonical encoding followed by any
tail reads back as the encoded value, consuming exactly the encoding. -/
theorem readVarInt62_write {v : Nat} {b : List Nat}
    (h : writeVarInt62 v = some b) (tail : List Nat) :
    readVarInt62 (b ++ tail) = some (v, tail) := by
  unfold writeVarInt62 at h
  split at h
  · rename_i h1
    injection h with h
    subst h
    have e : v / 2 ^ (8 * 0) % 256 / 64 = 0 := by norm_num; omega
    have hr := readVarInt62_cons (v / 2 ^ (8 * 0) % 256) (beBytes 0 v) tail
      (Nat.mod_lt _ (by norm_num)) (by rw [beBytes_length, e]; norm_num)
    show readVarInt62 (v / 2 ^ (8 * 0) % 256 :: (beBytes 0 v ++ tail)) = _
    rw [hr, beBytes_length, beValue_beBytes]
    norm_num
    omega
  · rename_i h1
    split at h
    · rename_i h2
      injection h with h
      subst h
      have e : (2 ^ 14 + v) / 2 ^ (8 * 1) % 256 / 64 = 1 := by norm_num; omega
      have hr := readVarInt62_cons ((2 ^ 14 + v) / 2 ^ (8 * 1) % 256)
        (beBytes 1 (2 ^ 14 + v)) tail (Nat.mod_lt _ (by norm_num))
        (by rw [beBytes_length, e]; norm_num)
      show readVarInt62
        ((2 ^ 14 + v) / 2 ^ (8 * 1) % 256 :: (beBytes 1 (2 ^ 14 + v) ++ tail)) = _
      rw [hr, beBytes_length, beValue_beBytes]
      norm_num
      omega
    · rename_i h2
      split at h
      · rename_i h3
        injection h with h
        subst h
        have e : (2 ^ 31 + v) / 2 ^ (8 * 3) % 256 / 64 = 2 := by norm_num; omega
        have hr := readVarInt62_cons ((2 ^ 31 + v) / 2 ^ (8 * 3) % 256)
          (beBytes 3 (2 ^ 31 + v)) tail (Nat.mod_lt _ (by norm_num))
          (by rw [beBytes_length, e]; norm_num)
        show readVarInt62
          ((2 ^ 31 + v) / 2 ^ (8 * 3) % 256 :: (beBytes 3 (2 ^ 31 + v) ++ tail)) = _
        rw [hr, beBytes_length, beValue_beBytes]
        norm_num
        omega
      · rename_i h3
        split at h
        · rename_i h4
          injection h with h
          subst h
          have e : (3 * 2 ^ 62 + v) / 2 ^ (8 * 7) % 256 / 64 = 3 := by norm_num; omega
          have hr := readVarInt62_cons ((3 * 2 ^ 62 + v) / 2 ^ (8 * 7) % 256)
            (beBytes 7 (3 * 2 ^ 62 + v)) tail (Nat.mod_lt _ (by norm_num))
            (by rw [beBytes_length, e]; norm_num)
          show readVarInt62
            ((3 * 2 ^ 62 + v) / 2 ^ (8 * 7) % 256 :: (beBytes 7 (3 * 2 ^ 62 + v) ++ tail)) = _
          rw [hr, beBytes_length, beValue_beBytes]
          norm_num
          omega
        · exact absurd h (by simp)

/-- A strict proper part of a canonical varint encoding is a short read. -/
theorem readVarInt62_short {v : Nat} {b p u : List Nat}
    (h : writeVarInt62 v = some b) (hpre : p ++ u = b)
    (hlt : p.length < b.length) : readVarInt62 p = none := by
  obtain ⟨b0, brest, hb, hb0, hlen, -⟩ := writeVarInt62_shape h
  cases p with
  | nil => rfl
  | cons p0 pr =>
    rw [hb] at hpre hlt
    have h0 : p0 = b0 := by
      have := congrArg (fun l => l.headI) hpre
      simpa using this
    subst h0
    have hb0' : p0 % 256 = p0 := Nat.mod_eq_of_lt hb0
    have hpr : pr.length < 2 ^ (p0 / 64) - 1 := by
      simp only [List.length_cons] at hlt
      omega
    simp only [readVarInt62, hb0']
    rw [if_pos hpr]

/-- Reading a length-prefixed byte string that is fully present. -/
theorem readStringPieceVarInt62_write {L : Nat} {lb : List Nat}
    (h : writeVarInt62 L = some lb) (payload tail : List Nat)
    (hp : payload.length = L) :
    readStringPieceVarInt62 (lb ++ (payload ++ tail)) = some (payload, tail) := by
  subst hp
  unfold readStringPieceVarInt62
  rw [readVarInt62_write h]
  show readStringPiece payload.length (payload ++ tail) = some (payload, tail)
  unfold readStringPiece
  rw [if_neg (by simp only [List.length_append]; omega)]
  rw [List.take_left, List.drop_left]

/-- Modelled from the spec: capsule type codes of capsule.h (not under
src/), §3 of the specification. -/
def kDATAGRAM : Nat := 0x00

/-- Modelled from the spec: LEGACY_DATAGRAM type code. -/
def kLEGACY_DATAGRAM : Nat := 0xff37a0

/-- Modelled from the spec: LEGACY_DATAGRAM_WITHOUT_CONTEXT type code. -/
def kLEGACY_DATAGRAM_WITHOUT_CONTEXT : Nat := 0xff37a5

/-- Modelled from the spec: CLOSE_WEBTRANSPORT_SESSION type code. -/
def kCLOSE_WEBTRANSPORT_SESSION : Nat := 0x2843

/-- Modelled from the spec: ADDRESS_REQUEST type code. -/
def kADDRESS_REQUEST : Nat := 0x9ECA6A00

/-- Modelled from the spec: ADDRESS_ASSIGN type code. -/
def kADDRESS_ASSIGN : Nat := 0x9ECA6A01

/-- Modelled from the spec: ROUTE_ADVERTISEMENT type code. -/
def kROUTE_ADVERTISEMENT : Nat := 0x9ECA6A02

/-- Whether a type code is one of the seven known capsule types. -/
def isKnownType (t : Nat) : Bool :=
  decide (t = kDATAGRAM ∨ t = kLEGACY_DATAGRAM ∨
    t = kLEGACY_DATAGRAM_WITHOUT_CONTEXT ∨ t = kCLOSE_WEBTRANSPORT_SESSION ∨
    t = kADDRESS_REQUEST ∨ t = kADDRESS_ASSIGN ∨ t = kROUTE_ADVERTISEMENT)

/-- Modelled from the spec: a packed QuicheIpAddress (not under src/) is a
byte string of length 4 (IPv4) or 16 (IPv6); `ToPackedString` is the
identity on this representation and `IsIPv4` tests the length. -/
def isIPv4 (a : List Nat) : Bool := decide (a.length = 4)

/-- Modelled from the spec: `QuicheIpPrefix(address).prefix_length()` is
the full width of the address family: 32 for IPv4, 128 for IPv6. -/
def familyWidth (a : List Nat) : Nat := if a.length = 4 then 32 else 128

/-- Modelled from the spec: QuicheIpAddress::FromPackedString succeeds iff
the input is 4 or 16 bytes long, and preserves the bytes. -/
def fromPackedString (bs : List Nat) : Option (List Nat) :=
  if bs.length = 4 ∨ bs.length = 16 then some bs else none

/-- An IP prefix: packed address plus prefix length.  Models
quiche::QuicheIpPrefix (the name is shortened for this development). -/
structure IpPfx where
  address : List Nat
  prefix_length : Nat
deriving DecidableEq

/-- quiche::PrefixWithId: a prefix paired with a request identifier.  The
field modelling `ip_prefix` is called `ip_pfx` here. -/
structure PrefixWithId where
  request_id : Nat
  ip_pfx : IpPfx
deriving DecidableEq

/-- quiche::IpAddressRange: an inclusive address interval plus protocol. -/
structure IpAddressRange where
  start_ip_address : List Nat
  end_ip_address : List Nat
  ip_protocol : Nat
deriving DecidableEq

/-- quiche::Capsule: the tagged union over the seven known variants plus
Unknown, with the same per-variant fields and the field-wise equality of
`Capsule::operator==`. -/
inductive Capsule where
  | datagram (http_datagram_payload : List Nat)
  | legacyDatagram (http_datagram_payload : List Nat)
  | legacyDatagramWithoutContext (http_datagram_payload : List Nat)
  | closeWebTransportSession (error_code : Nat) (error_message : List Nat)
  | addressRequest (requested_addresses : List PrefixWithId)
  | addressAssign (assigned_addresses : List PrefixWithId)
  | routeAdvertisement (ip_address_ranges : List IpAddressRange)
  | unknown (type_code : Nat) (data : List Nat)
deriving DecidableEq

/-- The wire type code of a capsule (`Capsule::capsule_type()`). -/
def Capsule.typeCode : Capsule → Nat
  | .datagram _ => kDATAGRAM
  | .legacyDatagram _ => kLEGACY_DATAGRAM
  | .legacyDatagramWithoutContext _ => kLEGACY_DATAGRAM_WITHOUT_CONTEXT
  | .closeWebTransportSession _ _ => kCLOSE_WEBTRANSPORT_SESSION
  | .addressRequest _ => kADDRESS_REQUEST
  | .addressAssign _ => kADDRESS_ASSIGN
  | .routeAdvertisement _ => kROUTE_ADVERTISEMENT
  | .unknown t _ => t

/-- Well-formedness of a PrefixWithId as enforced by the C++ types and
the QuicheIpPrefix invariant: a 62-bit request id, a packed address of a
valid family, and a prefix length within the family width. -/
def PrefixWithId.wfb (p : PrefixWithId) : Bool :=
  decide (p.request_id < 2 ^ 62) &&
  decide (p.ip_pfx.address.length = 4 ∨ p.ip_pfx.address.length = 16) &&
  decide (p.ip_pfx.prefix_length ≤ familyWidth p.ip_pfx.address)

/-- Well-formedness of an IpAddressRange: both packed addresses of the
same valid family (§3 invariant) and a `uint8_t` protocol. -/
def IpAddressRange.wfb (r : IpAddressRange) : Bool :=
  decide ((r.start_ip_address.length = 4 ∧ r.end_ip_address.length = 4) ∨
    (r.start_ip_address.length = 16 ∧ r.end_ip_address.length = 16)) &&
  decide (r.ip_protocol < 256)

/-- Well-formedness of a capsule value: the constraints the C++ field
types and invariants impose (`uint32_t` error code, valid prefixes and
ranges, a 62-bit unknown type code outside the known set). -/
def Capsule.wfb : Capsule → Bool
  | .datagram _ => true
  | .legacyDatagram _ => true
  | .legacyDatagramWithoutContext _ => true
  | .closeWebTransportSession code _ => decide (code < 2 ^ 32)
  | .addressRequest ps => ps.all PrefixWithId.wfb
  | .addressAssign ps => ps.all PrefixWithId.wfb
  | .routeAdvertisement rs => rs.all IpAddressRange.wfb
  | .unknown t _ => decide (t < 2 ^ 62) && !isKnownType t

/-- Serialization of one PrefixWithId (class WirePrefixWithId,
capsule.cc): request id varint, family byte from the address, packed
address bytes, prefix length byte. -/
def serializePrefixWithId (p : PrefixWithId) : Option (List Nat) :=
  match writeVarInt62 p.request_id with
  | none => none
  | some rid =>
    some (rid ++ (if isIPv4 p.ip_pfx.address then 4 else 6) ::
      (p.ip_pfx.address ++ [p.ip_pfx.prefix_length % 256]))

/-- Serialization of a list of PrefixWithId (`WireSpan<WirePrefixWithId>`):
concatenation of the element serializations. -/
def serializePrefixList : List PrefixWithId → Option (List Nat)
  | [] => some []
  | p :: ps =>
    match serializePrefixWithId p, serializePrefixList ps with
    | some b, some bs => some (b ++ bs)
    | _, _ => none

/-- Serialization of one IpAddressRange (class WireIpAddressRange,
capsule.cc): family byte from the start address, both packed addresses,
protocol byte. -/
def serializeRange (r : IpAddressRange) : List Nat :=
  (if isIPv4 r.start_ip_address then 4 else 6) ::
    (r.start_ip_address ++ r.end_ip_address ++ [r.ip_protocol % 256])

/-- Serialization of a list of IpAddressRange. -/
def serializeRangeList (rs : List IpAddressRange) : List Nat :=
  (rs.map serializeRange).flatten

/-- The variant-specific capsule payload bytes, per the dispatch of
SerializeCapsuleWithStatus (capsule.cc). -/
def serializeCapsulePayload : Capsule → Option (List Nat)
  | .datagram p => some p
  | .legacyDatagram p => some p
  | .legacyDatagramWithoutContext p => some p
  | .closeWebTransportSession code msg => some (beBytes 4 code ++ msg)
  | .addressRequest ps => serializePrefixList ps
  | .addressAssign ps => serializePrefixList ps
  | .routeAdvertisement rs => some (serializeRangeList rs)
  | .unknown _ d => some d

/-- SerializeCapsuleWithStatus (capsule.cc): type varint, payload length
varint, payload. -/
def serializeCapsuleWithStatus (c : Capsule) : Option (List Nat) :=
  match serializeCapsulePayload c with
  | none => none
  | some payload =>
    match writeVarInt62 c.typeCode, writeVarInt62 payload.length with
    | some tb, some lb => some (tb ++ (lb ++ payload))
    | _, _ => none

/-- One PrefixWithId element of an ADDRESS_REQUEST or ADDRESS_ASSIGN
payload, per the per-element body of the corresponding loops in
CapsuleParser::AttemptParseCapsule (capsule.cc).  `name` is the capsule
name appearing in the error messages ("ADDRESS_REQUEST" or
"ADDRESS_ASSIGN"); the two C++ loops are textually identical up to it. -/
def parseOnePrefixWithId (name : String) (data : List Nat) :
    Except String (PrefixWithId × List Nat) :=
  match readVarInt62 data with
  | none => .error ("Unable to parse capsule " ++ name ++ " request ID")
  | some (rid, d1) =>
    match readUInt8 d1 with
    | none => .error ("Unable to parse capsule " ++ name ++ " family")
    | some (fam, d2) =>
      if fam ≠ 4 ∧ fam ≠ 6 then .error ("Bad " ++ name ++ " family")
      else
        match readStringPiece (if fam = 4 then 4 else 16) d2 with
        | none => .error ("Unable to read capsule " ++ name ++ " address")
        | some (abytes, d3) =>
          match fromPackedString abytes with
          | none => .error ("Unable to parse capsule " ++ name ++ " address")
          | some addr =>
            match readUInt8 d3 with
            | none =>
              .error ("Unable to parse capsule " ++ name ++ " IP prefix length")
            | some (plen, d4) =>
              if plen > familyWidth addr then .error "Invalid IP prefix length"
              else .ok (⟨rid, ⟨addr, plen⟩⟩, d4)

/-- One IpAddressRange element of a ROUTE_ADVERTISEMENT payload, per the
per-element body of the corresponding loop in
CapsuleParser::AttemptParseCapsule (capsule.cc). -/
def parseOneRange (data : List Nat) :
    Except String (IpAddressRange × List Nat) :=
  match readUInt8 data with
  | none => .error "Unable to parse capsule ROUTE_ADVERTISEMENT family"
  | some (fam, d1) =>
    if fam ≠ 4 ∧ fam ≠ 6 then .error "Bad ROUTE_ADVERTISEMENT family"
    else
      match readStringPiece (if fam = 4 then 4 else 16) d1 with
      | none => .error "Unable to read capsule ROUTE_ADVERTISEMENT start address"
      | some (sbytes, d2) =>
        match fromPackedString sbytes with
        | none => .error "Unable to parse capsule ROUTE_ADVERTISEMENT start address"
        | some saddr =>
          match readStringPiece (if fam = 4 then 4 else 16) d2 with
          | none => .error "Unable to read capsule ROUTE_ADVERTISEMENT end address"
          | some (ebytes, d3) =>
            match fromPackedString ebytes with
            | none => .error "Unable to parse capsule ROUTE_ADVERTISEMENT end address"
            | some eaddr =>
              match readUInt8 d3 with
              | none => .error "Unable to parse capsule ROUTE_ADVERTISEMENT IP protocol"
              | some (proto, d4) => .ok (⟨saddr, eaddr, proto⟩, d4)

/-- Fuel-indexed while-loop over PrefixWithId elements.  Each iteration
consumes at least one byte, so any fuel above the data length makes the
out-of-fuel case unreachable; `parsePrefixList` below instantiates the
fuel accordingly and `parsePrefixList_eq` proves the intended recurrence. -/
def parsePrefixListF (name : String) : Nat → List Nat →
    Except String (List PrefixWithId)
  | 0, _ => .error "out of fuel"
  | fuel + 1, data =>
    if data = [] then .ok []
    else
      match parseOnePrefixWithId name data with
      | .error e => .error e
      | .ok (p, rest) =>
        match parsePrefixListF name fuel rest with
        | .error e => .error e
        | .ok ps => .ok (p :: ps)

/-- The `while (!capsule_data_reader.IsDoneReading())` loop over
PrefixWithId elements of AttemptParseCapsule (capsule.cc). -/
def parsePrefixList (name : String) (data : List Nat) :
    Except String (List PrefixWithId) :=
  parsePrefixListF name (data.length + 1) data

/-- Fuel-indexed while-loop over IpAddressRange elements. -/
def parseRangeListF : Nat → List Nat → Except String (List IpAddressRange)
  | 0, _ => .error "out of fuel"
  | fuel + 1, data =>
    if data = [] then .ok []
    else
      match parseOneRange data with
      | .error e => .error e
      | .ok (r, rest) =>
        match parseRangeListF fuel rest with
        | .error e => .error e
        | .ok rs => .ok (r :: rs)

/-- The `while (!capsule_data_reader.IsDoneReading())` loop over
IpAddressRange elements of AttemptParseCapsule (capsule.cc). -/
def parseRangeList (data : List Nat) : Except String (List IpAddressRange) :=
  parseRangeListF (data.length + 1) data

/-- The per-type dispatch of CapsuleParser::AttemptParseCapsule
(capsule.cc) applied to the extracted payload bytes: produces the parsed
capsule or the parse-failure message. -/
def parseCapsulePayload (t : Nat) (data : List Nat) : Except String Capsule :=
  if t = kDATAGRAM then .ok (.datagram data)
  else if t = kLEGACY_DATAGRAM then .ok (.legacyDatagram data)
  else if t = kLEGACY_DATAGRAM_WITHOUT_CONTEXT then
    .ok (.legacyDatagramWithoutContext data)
  else if t = kCLOSE_WEBTRANSPORT_SESSION then
    match readUInt32 data with
    | none => .error "Unable to parse capsule CLOSE_WEBTRANSPORT_SESSION error code"
    | some (code, rest) => .ok (.closeWebTransportSession code rest)
  else if t = kADDRESS_REQUEST then
    (parsePrefixList "ADDRESS_REQUEST" data).map Capsule.addressRequest
  else if t = kADDRESS_ASSIGN then
    (parsePrefixList "ADDRESS_ASSIGN" data).map Capsule.addressAssign
  else if t = kROUTE_ADVERTISEMENT then
    (parseRangeList data).map Capsule.routeAdvertisement
  else .ok (.unknown t data)

/-- Observable visitor interactions, in call order: `OnCapsule` and
`OnCapsuleParseFailure`. -/
inductive Event where
  | onCapsule (c : Capsule)
  | onParseFailure (msg : String)
deriving DecidableEq

/-- The outcome of one CapsuleParser::AttemptParseCapsule call: bytes
consumed, visitor events emitted, and whether ReportParseFailure ran. -/
structure AttemptResult where
  consumed : Nat
  events : List Event
  failed : Bool
deriving DecidableEq

/-- CapsuleParser::AttemptParseCapsule (capsule.cc), run on the buffered
data with the visitor decision function `v`.  Short reads of the type or
of the length-plus-payload consume nothing and emit nothing; a parse error
or a visitor rejection consumes nothing and reports a failure; a delivered
capsule consumes the header plus payload
(`capsule_fragment_reader.PreviouslyReadPayload().length()`). -/
def attemptParseCapsule (v : Capsule → Bool) (buffered : List Nat) :
    AttemptResult :=
  if buffered = [] then ⟨0, [], false⟩
  else
    match readVarInt62 buffered with
    | none => ⟨0, [], false⟩
    | some (t, r1) =>
      match readStringPieceVarInt62 r1 with
      | none => ⟨0, [], false⟩
      | some (cdata, r2) =>
        match parseCapsulePayload t cdata with
        | .error msg => ⟨0, [.onParseFailure msg], true⟩
        | .ok c =>
          if v c then ⟨buffered.length - r2.length, [.onCapsule c], false⟩
          else ⟨0, [.onCapsule c,
            .onParseFailure "Visitor failed to process capsule"], true⟩

/-- Fuel-indexed version of the `while (true)` drain loop of
CapsuleParser::IngestCapsuleFragment (capsule.cc).  Returns the residual
buffer, the events emitted, and whether a failure occurred. -/
def parseLoopF (v : Capsule → Bool) : Nat → List Nat →
    List Nat × List Event × Bool
  | 0, buffered => (buffered, [], false)
  | fuel + 1, buffered =>
    let r := attemptParseCapsule v buffered
    if r.failed then (buffered, r.events, true)
    else if r.consumed = 0 then (buffered, r.events, false)
    else
      let q := parseLoopF v fuel (buffered.drop r.consumed)
      (q.1, r.events ++ q.2.1, q.2.2)

/-- The drain loop of CapsuleParser::IngestCapsuleFragment: repeatedly
attempt to extract one capsule until a short read or a failure. -/
def parseLoop (v : Capsule → Bool) (buffered : List Nat) :
    List Nat × List Event × Bool :=
  parseLoopF v (buffered.length + 1) buffered

/-- CapsuleParser state: the buffered bytes and the sticky error flag. -/
structure ParserState where
  buffered_data : List Nat
  parsing_error_occurred : Bool
deriving DecidableEq

/-- A freshly constructed CapsuleParser. -/
def freshParser : ParserState := ⟨[], false⟩

/-- CapsuleParser::IngestCapsuleFragment (capsule.cc): refuse if already
failed; append the fragment; drain complete capsules; clear the buffer on
failure; enforce the 1 MiB buffer cap on the residual. -/
def ingestCapsuleFragment (v : Capsule → Bool) (st : ParserState)
    (frag : List Nat) : Bool × ParserState × List Event :=
  if st.parsing_error_occurred then (false, st, [])
  else
    let r := parseLoop v (st.buffered_data ++ frag)
    if r.2.2 then (false, ⟨[], true⟩, r.2.1)
    else if r.1.length > 1024 * 1024 then
      (false, ⟨[], true⟩,
        r.2.1 ++ [.onParseFailure "Refusing to buffer too much capsule data"])
    else (true, ⟨r.1, false⟩, r.2.1)

/-- CapsuleParser::ErrorIfThereIsRemainingBufferedData (capsule.cc). -/
def errorIfThereIsRemainingBufferedData (st : ParserState) :
    ParserState × List Event :=
  if st.parsing_error_occurred then (st, [])
  else if st.buffered_data = [] then (st, [])
  else (⟨st.buffered_data, true⟩,
    [.onParseFailure "Incomplete capsule left at the end of the stream"])

/-- Feeding a sequence of fragments to one parser: the conjunction of the
ingest results, the final state, and the concatenated event trace. -/
def ingestAll (v : Capsule → Bool) (st : ParserState) :
    List (List Nat) → Bool × ParserState × List Event
  | [] => (true, st, [])
  | f :: fs =>
    let r := ingestCapsuleFragment v st f
    let q := ingestAll v r.2.1 fs
    (r.1 && q.1, q.2.1, r.2.2 ++ q.2.2)

/-- A public API call on a CapsuleParser. -/
inductive ApiCall where
  | ingest (frag : List Nat)
  | checkEnd
deriving DecidableEq

/-- Running a sequence of API calls against one parser, collecting the
full event trace of its lifetime. -/
def runCalls (v : Capsule → Bool) (st : ParserState) :
    List ApiCall → ParserState × List Event
  | [] => (st, [])
  | .ingest f :: rest =>
    let r := ingestCapsuleFragment v st f
    let q := runCalls v r.2.1 rest
    (q.1, r.2.2 ++ q.2)
  | .checkEnd :: rest =>
    let r := errorIfThereIsRemainingBufferedData st
    let q := runCalls v r.1 rest
    (q.1, r.2 ++ q.2)

/-- Number of `onParseFailure` events in a trace. -/
def failureCount (evs : List Event) : Nat :=
  (evs.filter fun e => match e with
    | .onParseFailure _ => true
    | _ => false).length

/-- Given the per-capsule wire blocks of a stream and a byte prefix of the
stream, the residual bytes past the last complete capsule boundary inside
that prefix. -/
def residualOf : List (List Nat) → List Nat → List Nat
  | [], p => p
  | b :: bs, p => if p.length < b.length then p else residualOf bs (p.drop b.length)

theorem parseOnePrefixWithId_rest_lt {name : String} {data : List Nat}
    {p : PrefixWithId} {rest : List Nat}
    (h : parseOnePrefixWithId name data = .ok (p, rest)) :
    rest.length < data.length := by
  unfold parseOnePrefixWithId at h
  split at h
  · simp at h
  · rename_i rid d1 h1
    split at h
    · simp at h
    · rename_i fam d2 h2
      split at h
      · simp at h
      · split at h
        · simp at h
        · rename_i abytes d3 h3
          split at h
          · simp at h
          · rename_i addr h4
            split at h
            · simp at h
            · rename_i plen d4 h5
              split at h
              · simp at h
              · simp only [Except.ok.injEq, Prod.mk.injEq] at h
                have e1 := readVarInt62_rest_lt h1
                have e2 := readUInt8_rest_lt h2
                have e3 := readStringPiece_rest_le h3
                have e4 := readUInt8_rest_lt h5
                have : rest = d4 := h.2.symm
                subst this
                omega

theorem parseOneRange_rest_lt {data : List Nat}
    {r : IpAddressRange} {rest : List Nat}
    (h : parseOneRange data = .ok (r, rest)) :
    rest.length < data.length := by
  unfold parseOneRange at h
  split at h
  · simp at h
  · rename_i fam d1 h1
    split at h
    · simp at h
    · split at h
      · simp at h
      · rename_i sbytes d2 h2
        split at h
        · simp at h
        · rename_i saddr h3
          split at h
          · simp at h
          · rename_i ebytes d3 h4
            split at h
            · simp at h
            · rename_i eaddr h5
              split at h
              · simp at h
              · rename_i proto d4 h6
                simp only [Except.ok.injEq, Prod.mk.injEq] at h
                have e1 := readUInt8_rest_lt h1
                have e2 := readStringPiece_rest_le h2
                have e3 := readStringPiece_rest_le h4
                have e4 := readUInt8_rest_lt h6
                have : rest = d4 := h.2.symm
                subst this
                omega

theorem parsePrefixListF_mono (name : String) :
    ∀ f1 f2 data, data.length < f1 → data.length < f2 →
      parsePrefixListF name f1 data = parsePrefixListF name f2 data := by
  intro f1
  induction f1 with
  | zero => intro f2 data h1 h2; omega
  | succ f ih =>
    intro f2 data h1 h2
    cases f2 with
    | zero => omega
    | succ g =>
      unfold parsePrefixListF
      by_cases hd : data = []
      · simp [hd]
      · simp only [if_neg hd]
        cases hp : parseOnePrefixWithId name data with
        | error e => rfl
        | ok pr =>
          obtain ⟨p, rest⟩ := pr
          have hlt := parseOnePrefixWithId_rest_lt hp
          dsimp only
          rw [ih g rest (by omega) (by omega)]

/-- Unfolding equation for the PrefixWithId loop, fuel eliminated. -/
theorem parsePrefixList_eq (name : String) (data : List Nat) :
    parsePrefixList name data =
      if data = [] then .ok []
      else
        match parseOnePrefixWithId name data with
        | .error e => .error e
        | .ok (p, rest) =>
          match parsePrefixList name rest with
          | .error e => .error e
          | .ok ps => .ok (p :: ps) := by
  unfold parsePrefixList
  conv_lhs => rw [parsePrefixListF]
  by_cases hd : data = []
  · simp [hd]
  · simp only [if_neg hd]
    cases hp : parseOnePrefixWithId name data with
    | error e => rfl
    | ok pr =>
      obtain ⟨p, rest⟩ := pr
      have hlt := parseOnePrefixWithId_rest_lt hp
      dsimp only
      rw [parsePrefixListF_mono name data.length (rest.length + 1) rest
        (by omega) (by omega)]

theorem parseRangeListF_mono :
    ∀ f1 f2 data, data.length < f1 → data.length < f2 →
      parseRangeListF f1 data = parseRangeListF f2 data := by
  intro f1
  induction f1 with
  | zero => intro f2 data h1 h2; omega
  | succ f ih =>
    intro f2 data h1 h2
    cases f2 with
    | zero => omega
    | succ g =>
      unfold parseRangeListF
      by_cases hd : data = []
      · simp [hd]
      · simp only [if_neg hd]
        cases hp : parseOneRange data with
        | error e => rfl
        | ok pr =>
          obtain ⟨r, rest⟩ := pr
          have hlt := parseOneRange_rest_lt hp
          dsimp only
          rw [ih g rest (by omega) (by omega)]

/-- Unfolding equation for the IpAddressRange loop, fuel eliminated. -/
theorem parseRangeList_eq (data : List Nat) :
    parseRangeList data =
      if data = [] then .ok []
      else
        match parseOneRange data with
        | .error e => .error e
        | .ok (r, rest) =>
          match parseRangeList rest with
          | .error e => .error e
          | .ok rs => .ok (r :: rs) := by
  unfold parseRangeList
  conv_lhs => rw [parseRangeListF]
  by_cases hd : data = []
  · simp [hd]
  · simp only [if_neg hd]
    cases hp : parseOneRange data with
    | error e => rfl
    | ok pr =>
      obtain ⟨r, rest⟩ := pr
      have hlt := parseOneRange_rest_lt hp
      dsimp only
      rw [parseRangeListF_mono data.length (rest.length + 1) rest
        (by omega) (by omega)]

theorem attemptParseCapsule_nil (v : Capsule → Bool) :
    attemptParseCapsule v [] = ⟨0, [], false⟩ := rfl

theorem attemptParseCapsule_consumed_le (v : Capsule → Bool) (b : List Nat) :
    (attemptParseCapsule v b).consumed ≤ b.length := by
  unfold attemptParseCapsule
  split
  · simp
  · split
    · simp
    · rename_i t r1 h1
      split
      · simp
      · rename_i cdata r2 h2
        split
        · simp
        · split
          · simp
          · simp

theorem attemptParseCapsule_consumed_pos {v : Capsule → Bool} {b : List Nat}
    (h : (attemptParseCapsule v b).consumed ≠ 0) :
    b ≠ [] ∧ (b.drop (attemptParseCapsule v b).consumed).length < b.length := by
  have hne : b ≠ [] := by
    intro he
    rw [he, attemptParseCapsule_nil] at h
    exact h rfl
  have hle := attemptParseCapsule_consumed_le v b
  refine ⟨hne, ?_⟩
  rw [List.length_drop]
  have : 0 < b.length := by
    cases b with
    | nil => exact absurd rfl hne
    | cons x t => simp
  omega

theorem parseLoopF_mono (v : Capsule → Bool) :
    ∀ f1 f2 b, b.length < f1 → b.length < f2 →
      parseLoopF v f1 b = parseLoopF v f2 b := by
  intro f1
  induction f1 with
  | zero => intro f2 b h1 h2; omega
  | succ f ih =>
    intro f2 b h1 h2
    cases f2 with
    | zero => omega
    | succ g =>
      unfold parseLoopF
      by_cases hf : (attemptParseCapsule v b).failed
      · simp [hf]
      · simp only [if_neg hf]
        by_cases hc : (attemptParseCapsule v b).consumed = 0
        · simp [hc]
        · simp only [if_neg hc]
          obtain ⟨-, hlt⟩ := attemptParseCapsule_consumed_pos hc
          rw [ih g (b.drop (attemptParseCapsule v b).consumed)
            (by omega) (by omega)]

/-- Unfolding equation for the drain loop, fuel eliminated. -/
theorem parseLoop_eq (v : Capsule → Bool) (b : List Nat) :
    parseLoop v b =
      (let r := attemptParseCapsule v b
      if r.failed then (b, r.events, true)
      else if r.consumed = 0 then (b, r.events, false)
      else
        let q := parseLoop v (b.drop r.consumed)
        (q.1, r.events ++ q.2.1, q.2.2)) := by
  unfold parseLoop
  conv_lhs => rw [parseLoopF]
  by_cases hf : (attemptParseCapsule v b).failed
  · simp [hf]
  · simp only [if_neg hf]
    by_cases hc : (attemptParseCapsule v b).consumed = 0
    · simp [hc]
    · simp only [if_neg hc]
      obtain ⟨-, hlt⟩ := attemptParseCapsule_consumed_pos hc
      rw [parseLoopF_mono v b.length
        ((b.drop (attemptParseCapsule v b).consumed).length + 1)
        (b.drop (attemptParseCapsule v b).consumed) (by omega) (by omega)]

theorem readStringPiece_exact (s tail : List Nat) :
    readStringPiece s.length (s ++ tail) = some (s, tail) := by
  unfold readStringPiece
  rw [if_neg (by simp only [List.length_append]; omega), List.take_left,
    List.drop_left]

theorem readUInt32_beBytes {code : Nat} (hcode : code < 2 ^ 32)
    (msg : List Nat) :
    readUInt32 (beBytes 4 code ++ msg) = some (code, msg) := by
  unfold readUInt32
  rw [if_neg (by simp only [List.length_append, beBytes_length]; omega)]
  rw [List.take_left' (beBytes_length 4 code),
    List.drop_left' (beBytes_length 4 code), beValue_beBytes]
  rw [Nat.mod_eq_of_lt (by norm_num; omega)]

/-- A serialized PrefixWithId followed by any tail parses back to the
element, consuming exactly its serialization. -/
theorem parseOnePrefixWithId_serialize {p : PrefixWithId} {bp : List Nat}
    (hwf : p.wfb = true) (hs : serializePrefixWithId p = some bp)
    (name : String) (rest : List Nat) :
    parseOnePrefixWithId name (bp ++ rest) = .ok (p, rest) := by
  obtain ⟨rid, addr, plen⟩ := p
  simp only [PrefixWithId.wfb, Bool.and_eq_true, decide_eq_true_eq] at hwf
  obtain ⟨⟨h62, haddr⟩, hple⟩ := hwf
  unfold serializePrefixWithId at hs
  cases hrid : writeVarInt62 rid with
  | none => rw [hrid] at hs; simp at hs
  | some ridb =>
    rw [hrid] at hs
    simp only [Option.some.injEq] at hs
    subst hs
    rcases haddr with h4 | h16
    · have hip : isIPv4 addr = true := by simp [isIPv4, h4]
      have hw : familyWidth addr = 32 := by simp [familyWidth, h4]
      rw [hw] at hple
      have hpl256 : plen % 256 = plen := Nat.mod_eq_of_lt (by omega)
      have hsp : readStringPiece 4 (addr ++ plen :: rest) =
          some (addr, plen :: rest) := by
        rw [show (4 : Nat) = addr.length from h4.symm]
        exact readStringPiece_exact addr (plen :: rest)
      have hfp : fromPackedString addr = some addr := by
        unfold fromPackedString
        rw [if_pos (Or.inl h4)]
      have hnp : ¬(plen > 32) := by omega
      simp [parseOnePrefixWithId, readVarInt62_write hrid, readUInt8_cons,
        hip, hsp, hfp, hpl256, hw, hnp]
    · have hip : isIPv4 addr = false := by simp [isIPv4, h16]
      have hw : familyWidth addr = 128 := by simp [familyWidth, h16]
      rw [hw] at hple
      have hpl256 : plen % 256 = plen := Nat.mod_eq_of_lt (by omega)
      have hsp : readStringPiece 16 (addr ++ plen :: rest) =
          some (addr, plen :: rest) := by
        rw [show (16 : Nat) = addr.length from h16.symm]
        exact readStringPiece_exact addr (plen :: rest)
      have hfp : fromPackedString addr = some addr := by
        unfold fromPackedString
        rw [if_pos (Or.inr h16)]
      have hnp : ¬(plen > 128) := by omega
      simp [parseOnePrefixWithId, readVarInt62_write hrid, readUInt8_cons,
        hip, hsp, hfp, hpl256, hw, hnp]

/-- A serialized IpAddressRange followed by any tail parses back to the
element, consuming exactly its serialization. -/
theorem parseOneRange_serialize {r : IpAddressRange} (hwf : r.wfb = true)
    (rest : List Nat) :
    parseOneRange (serializeRange r ++ rest) = .ok (r, rest) := by
  obtain ⟨sa, ea, proto⟩ := r
  simp only [IpAddressRange.wfb, Bool.and_eq_true, decide_eq_true_eq] at hwf
  obtain ⟨hfam, hproto⟩ := hwf
  have hpr : proto % 256 = proto := Nat.mod_eq_of_lt hproto
  unfold serializeRange
  rcases hfam with ⟨h4s, h4e⟩ | ⟨h16s, h16e⟩
  · have hip : isIPv4 sa = true := by simp [isIPv4, h4s]
    have hsp1 : readStringPiece 4 (sa ++ (ea ++ proto :: rest)) =
        some (sa, ea ++ proto :: rest) := by
      rw [show (4 : Nat) = sa.length from h4s.symm]
      exact readStringPiece_exact sa (ea ++ proto :: rest)
    have hsp2 : readStringPiece 4 (ea ++ proto :: rest) =
        some (ea, proto :: rest) := by
      rw [show (4 : Nat) = ea.length from h4e.symm]
      exact readStringPiece_exact ea (proto :: rest)
    have hfp1 : fromPackedString sa = some sa := by
      unfold fromPackedString
      rw [if_pos (Or.inl h4s)]
    have hfp2 : fromPackedString ea = some ea := by
      unfold fromPackedString
      rw [if_pos (Or.inl h4e)]
    simp [parseOneRange, readUInt8_cons, hip, hsp1, hsp2, hfp1, hfp2, hpr]
  · have hip : isIPv4 sa = false := by simp [isIPv4, h16s]
    have hsp1 : readStringPiece 16 (sa ++ (ea ++ proto :: rest)) =
        some (sa, ea ++ proto :: rest) := by
      rw [show (16 : Nat) = sa.length from h16s.symm]
      exact readStringPiece_exact sa (ea ++ proto :: rest)
    have hsp2 : readStringPiece 16 (ea ++ proto :: rest) =
        some (ea, proto :: rest) := by
      rw [show (16 : Nat) = ea.length from h16e.symm]
      exact readStringPiece_exact ea (proto :: rest)
    have hfp1 : fromPackedString sa = some sa := by
      unfold fromPackedString
      rw [if_pos (Or.inr h16s)]
    have hfp2 : fromPackedString ea = some ea := by
      unfold fromPackedString
      rw [if_pos (Or.inr h16e)]
    simp [parseOneRange, readUInt8_cons, hip, hsp1, hsp2, hfp1, hfp2, hpr]

theorem serializePrefixWithId_ne_nil {p : PrefixWithId} {bp : List Nat}
    (hs : serializePrefixWithId p = some bp) : bp ≠ [] := by
  unfold serializePrefixWithId at hs
  cases hrid : writeVarInt62 p.request_id with
  | none => rw [hrid] at hs; simp at hs
  | some ridb =>
    rw [hrid] at hs
    simp only [Option.some.injEq] at hs
    subst hs
    simp

/-- Parsing a serialized element list followed by arbitrary extra bytes:
the elements are recovered and parsing continues on the extra bytes. -/
theorem parsePrefixList_serialize_append (name : String) :
    ∀ (ps : List PrefixWithId) (pbytes t : List Nat),
      (∀ p ∈ ps, p.wfb = true) → serializePrefixList ps = some pbytes →
      parsePrefixList name (pbytes ++ t) =
        match parsePrefixList name t with
        | .error e => .error e
        | .ok qs => .ok (ps ++ qs) := by
  intro ps
  induction ps with
  | nil =>
    intro pbytes t hwf hs
    simp only [serializePrefixList, Option.some.injEq] at hs
    subst hs
    rw [List.nil_append]
    cases h3 : parsePrefixList name t with
    | error e => simp
    | ok qs => simp
  | cons p ps ih =>
    intro pbytes t hwf hs
    unfold serializePrefixList at hs
    cases h1 : serializePrefixWithId p with
    | none => rw [h1] at hs; simp at hs
    | some bp =>
      cases h2 : serializePrefixList ps with
      | none => rw [h1, h2] at hs; simp at hs
      | some pbs =>
        rw [h1, h2] at hs
        simp only [Option.some.injEq] at hs
        subst hs
        have hbpne : bp ≠ [] := serializePrefixWithId_ne_nil h1
        have hpwf : p.wfb = true := hwf p (by simp)
        have hrest : ∀ q ∈ ps, q.wfb = true := fun q hq => hwf q (by simp [hq])
        rw [List.append_assoc, parsePrefixList_eq]
        rw [if_neg (by simp [hbpne])]
        rw [parseOnePrefixWithId_serialize hpwf h1 name (pbs ++ t)]
        dsimp only
        rw [ih pbs t hrest h2]
        cases h3 : parsePrefixList name t with
        | error e => simp
        | ok qs => simp

theorem serializeRangeList_cons (r : IpAddressRange) (rs : List IpAddressRange) :
    serializeRangeList (r :: rs) = serializeRange r ++ serializeRangeList rs := by
  simp [serializeRangeList]

theorem serializeRange_ne_nil (r : IpAddressRange) : serializeRange r ≠ [] := by
  simp [serializeRange]

/-- Parsing a serialized range list followed by arbitrary extra bytes. -/
theorem parseRangeList_serialize_append :
    ∀ (rs : List IpAddressRange) (t : List Nat),
      (∀ r ∈ rs, r.wfb = true) →
      parseRangeList (serializeRangeList rs ++ t) =
        match parseRangeList t with
        | .error e => .error e
        | .ok qs => .ok (rs ++ qs) := by
  intro rs
  induction rs with
  | nil =>
    intro t hwf
    show parseRangeList ([] ++ t) = _
    rw [List.nil_append]
    cases h3 : parseRangeList t with
    | error e => simp
    | ok qs => simp
  | cons r rs ih =>
    intro t hwf
    have hrwf : r.wfb = true := hwf r (by simp)
    have hrest : ∀ q ∈ rs, q.wfb = true := fun q hq => hwf q (by simp [hq])
    rw [serializeRangeList_cons, List.append_assoc, parseRangeList_eq]
    rw [if_neg (by simp [serializeRange_ne_nil r])]
    rw [parseOneRange_serialize hrwf (serializeRangeList rs ++ t)]
    dsimp only
    rw [ih t hrest]
    cases h3 : parseRangeList t with
    | error e => simp
    | ok qs => simp

theorem parsePrefixList_nil (name : String) : parsePrefixList name [] = .ok [] := rfl

theorem parseRangeList_nil : parseRangeList [] = .ok [] := rfl

/-- Payload round trip: the serialized payload of a well-formed capsule
parses back to the capsule under its own type code. -/
theorem parseCapsulePayload_serialize {c : Capsule} {pl : List Nat}
    (hwf : c.wfb = true) (hs : serializeCapsulePayload c = some pl) :
    parseCapsulePayload c.typeCode pl = .ok c := by
  cases c with
  | datagram p =>
    simp only [serializeCapsulePayload, Option.some.injEq] at hs
    subst hs
    rfl
  | legacyDatagram p =>
    simp only [serializeCapsulePayload, Option.some.injEq] at hs
    subst hs
    simp [parseCapsulePayload, Capsule.typeCode, kDATAGRAM, kLEGACY_DATAGRAM]
  | legacyDatagramWithoutContext p =>
    simp only [serializeCapsulePayload, Option.some.injEq] at hs
    subst hs
    simp [parseCapsulePayload, Capsule.typeCode, kDATAGRAM, kLEGACY_DATAGRAM,
      kLEGACY_DATAGRAM_WITHOUT_CONTEXT]
  | closeWebTransportSession code msg =>
    simp only [serializeCapsulePayload, Option.some.injEq] at hs
    subst hs
    simp only [Capsule.wfb, decide_eq_true_eq] at hwf
    simp [parseCapsulePayload, Capsule.typeCode, kDATAGRAM, kLEGACY_DATAGRAM,
      kLEGACY_DATAGRAM_WITHOUT_CONTEXT, kCLOSE_WEBTRANSPORT_SESSION,
      readUInt32_beBytes hwf msg]
  | addressRequest ps =>
    simp only [serializeCapsulePayload] at hs
    simp only [Capsule.wfb, List.all_eq_true] at hwf
    have := parsePrefixList_serialize_append "ADDRESS_REQUEST" ps pl []
      (fun p hp => hwf p hp) hs
    rw [List.append_nil, parsePrefixList_nil] at this
    simp only [List.append_nil] at this
    simp [parseCapsulePayload, Capsule.typeCode, kDATAGRAM, kLEGACY_DATAGRAM,
      kLEGACY_DATAGRAM_WITHOUT_CONTEXT, kCLOSE_WEBTRANSPORT_SESSION,
      kADDRESS_REQUEST, this, Except.map]
  | addressAssign ps =>
    simp only [serializeCapsulePayload] at hs
    simp only [Capsule.wfb, List.all_eq_true] at hwf
    have := parsePrefixList_serialize_append "ADDRESS_ASSIGN" ps pl []
      (fun p hp => hwf p hp) hs
    rw [List.append_nil, parsePrefixList_nil] at this
    simp only [List.append_nil] at this
    simp [parseCapsulePayload, Capsule.typeCode, kDATAGRAM, kLEGACY_DATAGRAM,
      kLEGACY_DATAGRAM_WITHOUT_CONTEXT, kCLOSE_WEBTRANSPORT_SESSION,
      kADDRESS_REQUEST, kADDRESS_ASSIGN, this, Except.map]
  | routeAdvertisement rs =>
    simp only [serializeCapsulePayload, Option.some.injEq] at hs
    subst hs
    simp only [Capsule.wfb, List.all_eq_true] at hwf
    have := parseRangeList_serialize_append rs [] (fun r hr => hwf r hr)
    rw [List.append_nil, parseRangeList_nil] at this
    simp only [List.append_nil] at this
    simp [parseCapsulePayload, Capsule.typeCode, kDATAGRAM, kLEGACY_DATAGRAM,
      kLEGACY_DATAGRAM_WITHOUT_CONTEXT, kCLOSE_WEBTRANSPORT_SESSION,
      kADDRESS_REQUEST, kADDRESS_ASSIGN, kROUTE_ADVERTISEMENT, this,
      Except.map]
  | unknown t d =>
    simp only [serializeCapsulePayload, Option.some.injEq] at hs
    subst hs
    simp only [Capsule.wfb, Bool.and_eq_true, decide_eq_true_eq,
      Bool.not_eq_true'] at hwf
    obtain ⟨h62, hkn⟩ := hwf
    simp only [isKnownType, decide_eq_false_iff_not, not_or] at hkn
    obtain ⟨n1, n2, n3, n4, n5, n6, n7⟩ := hkn
    simp [parseCapsulePayload, Capsule.typeCode, n1, n2, n3, n4, n5, n6, n7]

/-- Structure of a successful capsule serialization. -/
theorem serializeCapsuleWithStatus_shape {c : Capsule} {b : List Nat}
    (hs : serializeCapsuleWithStatus c = some b) :
    ∃ tb lb pl, writeVarInt62 c.typeCode = some tb ∧
      writeVarInt62 pl.length = some lb ∧
      serializeCapsulePayload c = some pl ∧ b = tb ++ (lb ++ pl) := by
  unfold serializeCapsuleWithStatus at hs
  cases hpl : serializeCapsulePayload c with
  | none => rw [hpl] at hs; simp at hs
  | some pl =>
    rw [hpl] at hs
    dsimp only at hs
    cases htb : writeVarInt62 c.typeCode with
    | none => rw [htb] at hs; simp at hs
    | some tb =>
      cases hlb : writeVarInt62 pl.length with
      | none => rw [htb, hlb] at hs; simp at hs
      | some lb =>
        rw [htb, hlb] at hs
        simp only [Option.some.injEq] at hs
        refine ⟨tb, lb, pl, ?_, ?_, ?_, hs.symm⟩ <;> first
        | rfl
        | assumption

theorem serializeCapsuleWithStatus_ne_nil {c : Capsule} {b : List Nat}
    (hs : serializeCapsuleWithStatus c = some b) : b ≠ [] := by
  obtain ⟨tb, lb, pl, htb, hlb, hpl, rfl⟩ := serializeCapsuleWithStatus_shape hs
  obtain ⟨b0, brest, rfl, -⟩ := writeVarInt62_shape htb
  simp

theorem append_eq_split {α : Type} {a b c d : List α} (h : a ++ b = c ++ d)
    (hle : c.length ≤ a.length) : ∃ e, a = c ++ e ∧ e ++ b = d := by
  have h1 : a.take c.length = c := by
    have h2 := congrArg (List.take c.length) h
    rw [List.take_append_of_le_length hle, List.take_left] at h2
    exact h2
  have h4 : a = c ++ a.drop c.length := by
    conv_lhs => rw [← List.take_append_drop c.length a]
    rw [h1]
  refine ⟨a.drop c.length, h4, ?_⟩
  have h3 : c ++ (a.drop c.length ++ b) = c ++ d := by
    rw [← List.append_assoc, ← h4]
    exact h
  simpa using h3

/-- A fully-present serialized capsule at the head of the buffer: the
attempt parses it, invokes the visitor once, and on acceptance consumes
exactly the serialization. -/
theorem attemptParseCapsule_exact {c : Capsule} {b : List Nat}
    (v : Capsule → Bool) (hwf : c.wfb = true)
    (hs : serializeCapsuleWithStatus c = some b) (rest : List Nat) :
    attemptParseCapsule v (b ++ rest) =
      if v c then ⟨b.length, [.onCapsule c], false⟩
      else ⟨0, [.onCapsule c,
        .onParseFailure "Visitor failed to process capsule"], true⟩ := by
  obtain ⟨tb, lb, pl, htb, hlb, hpl, hb⟩ := serializeCapsuleWithStatus_shape hs
  have hbne : b ++ rest ≠ [] := by
    subst hb
    obtain ⟨b0, brest, rfl, -⟩ := writeVarInt62_shape htb
    simp
  unfold attemptParseCapsule
  rw [if_neg hbne]
  subst hb
  rw [List.append_assoc, List.append_assoc, readVarInt62_write htb]
  dsimp only
  rw [readStringPieceVarInt62_write hlb pl rest rfl]
  dsimp only
  rw [parseCapsulePayload_serialize hwf hpl]
  dsimp only
  by_cases hv : v c
  · rw [if_pos hv, if_pos hv]
    have hlen : (tb ++ (lb ++ (pl ++ rest))).length - rest.length =
        (tb ++ (lb ++ pl)).length := by
      simp only [List.length_append]
      omega
    rw [hlen]
  · rw [if_neg hv, if_neg hv]

/-- A strict proper part of a serialized capsule is a short read: the
attempt consumes nothing, emits nothing, and does not fail. -/
theorem attemptParseCapsule_short {c : Capsule} {b t u : List Nat}
    (v : Capsule → Bool) (hs : serializeCapsuleWithStatus c = some b)
    (hpre : t ++ u = b) (hlt : t.length < b.length) :
    attemptParseCapsule v t = ⟨0, [], false⟩ := by
  obtain ⟨tb, lb, pl, htb, hlb, hpl, hb⟩ := serializeCapsuleWithStatus_shape hs
  by_cases ht : t = []
  · subst ht
    rfl
  · unfold attemptParseCapsule
    rw [if_neg ht]
    subst hb
    by_cases hlt1 : t.length < tb.length
    · obtain ⟨e, he1, he2⟩ := append_eq_split hpre.symm (by omega)
      rw [readVarInt62_short htb he1.symm hlt1]
    · push_neg at hlt1
      obtain ⟨t2, ht2, ht2u⟩ := append_eq_split hpre hlt1
      subst ht2
      rw [readVarInt62_write htb]
      dsimp only
      have hlt2 : t2.length < (lb ++ pl).length := by
        have := congrArg List.length ht2u
        simp only [List.length_append] at hlt this ⊢
        omega
      by_cases hlt3 : t2.length < lb.length
      · obtain ⟨e, he1, he2⟩ := append_eq_split ht2u.symm (by omega)
        unfold readStringPieceVarInt62
        rw [readVarInt62_short hlb he1.symm hlt3]
      · push_neg at hlt3
        obtain ⟨t3, ht3, ht3u⟩ := append_eq_split ht2u hlt3
        subst ht3
        unfold readStringPieceVarInt62
        rw [readVarInt62_write hlb]
        dsimp only
        have hlt4 : t3.length < pl.length := by
          simp only [List.length_append] at hlt2
          omega
        unfold readStringPiece
        rw [if_pos hlt4]

/-- A visitor that accepts every capsule (used for concrete runs). -/
def acceptAll : Capsule → Bool := fun _ => true

/-- Draining a buffer made of whole serialized capsules followed by a
stuck tail: every capsule is delivered in order and the tail remains. -/
theorem parseLoop_drain (v : Capsule → Bool) :
    ∀ (cs : List Capsule) (blocks : List (List Nat)),
      List.Forall₂ (fun c bl => serializeCapsuleWithStatus c = some bl) cs blocks →
      (∀ c ∈ cs, c.wfb = true) → (∀ c ∈ cs, v c = true) →
      ∀ t, attemptParseCapsule v t = ⟨0, [], false⟩ →
      parseLoop v (blocks.flatten ++ t) = (t, cs.map Event.onCapsule, false) := by
  intro cs blocks hser
  induction hser with
  | nil =>
    intro hwf hv t hstuck
    simp only [List.flatten_nil, List.nil_append, List.map_nil]
    rw [parseLoop_eq]
    simp [hstuck]
  | cons hcb htail ih =>
    rename_i c bl cs2 blocks2
    intro hwf hv t hstuck
    have hcwf : c.wfb = true := hwf c (by simp)
    have hcv : v c = true := hv c (by simp)
    have hwf2 : ∀ d ∈ cs2, d.wfb = true := fun d hd => hwf d (by simp [hd])
    have hv2 : ∀ d ∈ cs2, v d = true := fun d hd => hv d (by simp [hd])
    have hblne : bl ≠ [] := serializeCapsuleWithStatus_ne_nil hcb
    simp only [List.flatten_cons, List.append_assoc]
    rw [parseLoop_eq]
    have hex := attemptParseCapsule_exact v hcwf hcb (blocks2.flatten ++ t)
    rw [if_pos hcv] at hex
    rw [hex]
    have hlpos : 0 < bl.length := by
      cases bl with
      | nil => exact absurd rfl hblne
      | cons x xs => simp
    simp only [if_neg (by simp : ¬(false = true)), if_neg (by omega : ¬bl.length = 0)]
    rw [List.drop_left]
    rw [ih hwf2 hv2 t hstuck]
    simp

/-- Ingesting one whole serialized well-formed capsule into a fresh
parser delivers it and leaves a clean empty parser. -/
theorem ingest_single_capsule (c : Capsule) (v : Capsule → Bool)
    (hwf : c.wfb = true) (hv : v c = true) (bytes : List Nat)
    (hs : serializeCapsuleWithStatus c = some bytes) :
    ingestCapsuleFragment v freshParser bytes =
      (true, freshParser, [Event.onCapsule c]) := by
  have h0 := parseLoop_drain v [c] [bytes]
    (List.Forall₂.cons hs List.Forall₂.nil) (by simpa using hwf)
    (by simpa using hv) [] (attemptParseCapsule_nil v)
  have h1 : ([bytes] : List (List Nat)).flatten ++ [] = bytes := by simp
  rw [h1] at h0
  simp only [ingestCapsuleFragment, freshParser, List.nil_append]
  rw [h0]
  simp

/-- C1: Round-trip fidelity.  For every well-formed capsule value — the
seven known variants with arbitrary field values admitted by their C++
types and invariants, and Unknown with a 62-bit type code outside the
known set — feeding the buffer produced by SerializeCapsuleWithStatus to
a fresh parser whose visitor accepts the capsule delivers exactly one
OnCapsule call whose argument equals the capsule, IngestCapsuleFragment
returns true, and OnCapsuleParseFailure is never invoked. -/
theorem serialize_parse_roundtrip (c : Capsule) (v : Capsule → Bool)
    (hwf : c.wfb = true) (hv : v c = true) (bytes : List Nat)
    (hs : serializeCapsuleWithStatus c = some bytes) :
    ingestCapsuleFragment v freshParser bytes =
      (true, freshParser, [Event.onCapsule c]) :=
  ingest_single_capsule c v hwf hv bytes hs

/-- Witness for C1 at a concrete CLOSE_WEBTRANSPORT_SESSION capsule. -/
theorem serialize_parse_roundtrip_witness :
    Capsule.wfb (Capsule.closeWebTransportSession 42 [104, 105]) = true ∧
    serializeCapsuleWithStatus (Capsule.closeWebTransportSession 42 [104, 105]) =
      some [0x68, 0x43, 6, 0, 0, 0, 42, 104, 105] ∧
    ingestCapsuleFragment acceptAll freshParser
        [0x68, 0x43, 6, 0, 0, 0, 42, 104, 105] =
      (true, freshParser,
        [Event.onCapsule (Capsule.closeWebTransportSession 42 [104, 105])]) :=
  ⟨by decide, by decide,
    serialize_parse_roundtrip (Capsule.closeWebTransportSession 42 [104, 105])
      acceptAll (by decide) rfl [0x68, 0x43, 6, 0, 0, 0, 42, 104, 105]
      (by decide)⟩

/-- A visitor that rejects every capsule (used for concrete runs). -/
def rejectAll : Capsule → Bool := fun _ => false

/-- C7: Visitor abort.  If the visitor returns false for a completely
parsed capsule, the parser reports the failure "Visitor failed to process
capsule", the extraction attempt consumes zero bytes, the parser
transitions to the failed state, and the enclosing ingest returns false. -/
theorem visitor_abort (c : Capsule) (v : Capsule → Bool) (hwf : c.wfb = true)
    (hv : v c = false) (bytes rest : List Nat)
    (hs : serializeCapsuleWithStatus c = some bytes) :
    attemptParseCapsule v (bytes ++ rest) =
      ⟨0, [Event.onCapsule c,
        Event.onParseFailure "Visitor failed to process capsule"], true⟩ ∧
    ingestCapsuleFragment v freshParser bytes =
      (false, ⟨[], true⟩,
        [Event.onCapsule c,
          Event.onParseFailure "Visitor failed to process capsule"]) := by
  have hex := attemptParseCapsule_exact v hwf hs rest
  rw [if_neg (by simp [hv])] at hex
  refine ⟨hex, ?_⟩
  have hex2 := attemptParseCapsule_exact v hwf hs []
  rw [if_neg (by simp [hv])] at hex2
  rw [List.append_nil] at hex2
  simp only [ingestCapsuleFragment, freshParser, List.nil_append]
  rw [parseLoop_eq, hex2]
  simp

/-- Witness for C7 at a concrete DATAGRAM capsule. -/
theorem visitor_abort_witness :
    attemptParseCapsule rejectAll ([0, 1, 1] ++ []) =
      ⟨0, [Event.onCapsule (Capsule.datagram [1]),
        Event.onParseFailure "Visitor failed to process capsule"], true⟩ ∧
    ingestCapsuleFragment rejectAll freshParser [0, 1, 1] =
      (false, ⟨[], true⟩,
        [Event.onCapsule (Capsule.datagram [1]),
          Event.onParseFailure "Visitor failed to process capsule"]) :=
  visitor_abort (Capsule.datagram [1]) rejectAll (by decide) rfl
    [0, 1, 1] [] (by decide)

/-- C10: Empty-sequence edge case.  A wire capsule of type
ADDRESS_REQUEST, ADDRESS_ASSIGN or ROUTE_ADVERTISEMENT with declared
payload length zero parses successfully: the visitor receives the
corresponding variant with an empty element sequence, no parse failure
occurs, and ingest returns true. -/
theorem empty_sequence_parse (v : Capsule → Bool)
    (h1 : v (Capsule.addressRequest []) = true)
    (h2 : v (Capsule.addressAssign []) = true)
    (h3 : v (Capsule.routeAdvertisement []) = true) :
    ingestCapsuleFragment v freshParser (writeVar kADDRESS_REQUEST ++ [0]) =
      (true, freshParser, [Event.onCapsule (Capsule.addressRequest [])]) ∧
    ingestCapsuleFragment v freshParser (writeVar kADDRESS_ASSIGN ++ [0]) =
      (true, freshParser, [Event.onCapsule (Capsule.addressAssign [])]) ∧
    ingestCapsuleFragment v freshParser (writeVar kROUTE_ADVERTISEMENT ++ [0]) =
      (true, freshParser, [Event.onCapsule (Capsule.routeAdvertisement [])]) :=
  ⟨ingest_single_capsule _ v (by decide) h1 _ (by decide),
   ingest_single_capsule _ v (by decide) h2 _ (by decide),
   ingest_single_capsule _ v (by decide) h3 _ (by decide)⟩

/-- Witness for C10 with the accepting visitor. -/
theorem empty_sequence_parse_witness :
    ingestCapsuleFragment acceptAll freshParser
        (writeVar kADDRESS_REQUEST ++ [0]) =
      (true, freshParser, [Event.onCapsule (Capsule.addressRequest [])]) ∧
    ingestCapsuleFragment acceptAll freshParser
        (writeVar kADDRESS_ASSIGN ++ [0]) =
      (true, freshParser, [Event.onCapsule (Capsule.addressAssign [])]) ∧
    ingestCapsuleFragment acceptAll freshParser
        (writeVar kROUTE_ADVERTISEMENT ++ [0]) =
      (true, freshParser, [Event.onCapsule (Capsule.routeAdvertisement [])]) :=
  empty_sequence_parse acceptAll rfl rfl rfl

/-- C8: End-of-stream check.  On a parser that has not failed,
ErrorIfThereIsRemainingBufferedData with a non-empty buffer reports
exactly one failure "Incomplete capsule left at the end of the stream" and
transitions to failed; with an empty buffer, or on an already-failed
parser, it emits no visitor call and changes no state. -/
theorem end_of_stream_check (st : ParserState) :
    (st.parsing_error_occurred = false → st.buffered_data ≠ [] →
      errorIfThereIsRemainingBufferedData st =
        (⟨st.buffered_data, true⟩,
          [Event.onParseFailure
            "Incomplete capsule left at the end of the stream"])) ∧
    (st.parsing_error_occurred = false → st.buffered_data = [] →
      errorIfThereIsRemainingBufferedData st = (st, [])) ∧
    (st.parsing_error_occurred = true →
      errorIfThereIsRemainingBufferedData st = (st, [])) := by
  unfold errorIfThereIsRemainingBufferedData
  refine ⟨fun hok hne => ?_, fun hok he => ?_, fun herr => ?_⟩
  · rw [if_neg (by simp [hok]), if_neg hne]
  · rw [if_neg (by simp [hok]), if_pos he]
  · rw [if_pos herr]

/-- Witness for C8: a truncated type byte left in the buffer. -/
theorem end_of_stream_check_witness :
    errorIfThereIsRemainingBufferedData ⟨[0], false⟩ =
      (⟨[0], true⟩,
        [Event.onParseFailure
          "Incomplete capsule left at the end of the stream"]) :=
  (end_of_stream_check ⟨[0], false⟩).1 rfl (by decide)

theorem failureCount_append (a b : List Event) :
    failureCount (a ++ b) = failureCount a + failureCount b := by
  simp [failureCount, List.filter_append]

theorem attemptParseCapsule_failureCount (v : Capsule → Bool) (b : List Nat) :
    failureCount (attemptParseCapsule v b).events =
      (if (attemptParseCapsule v b).failed then 1 else 0) := by
  unfold attemptParseCapsule
  by_cases hb : b = []
  · simp [hb, failureCount]
  · rw [if_neg hb]
    cases h1 : readVarInt62 b with
    | none => simp [failureCount]
    | some x =>
      obtain ⟨t, r1⟩ := x
      cases h2 : readStringPieceVarInt62 r1 with
      | none => simp [h2, failureCount]
      | some y =>
        obtain ⟨cdata, r2⟩ := y
        cases h3 : parseCapsulePayload t cdata with
        | error msg => simp [h2, h3, failureCount]
        | ok c =>
          by_cases hv : v c
          · simp [h2, h3, hv, failureCount]
          · simp [h2, h3, hv, failureCount]

theorem parseLoopF_failureCount (v : Capsule → Bool) :
    ∀ (fuel : Nat) (b : List Nat),
      failureCount (parseLoopF v fuel b).2.1 =
        (if (parseLoopF v fuel b).2.2 then 1 else 0) := by
  intro fuel
  induction fuel with
  | zero => intro b; simp [parseLoopF, failureCount]
  | succ f ih =>
    intro b
    have h0 := attemptParseCapsule_failureCount v b
    unfold parseLoopF
    by_cases hf : (attemptParseCapsule v b).failed
    · rw [if_pos hf] at h0
      simp [hf, h0]
    · rw [if_neg hf] at h0
      by_cases hc : (attemptParseCapsule v b).consumed = 0
      · simp [hf, hc, h0]
      · simp [hf, hc, h0, failureCount_append, ih]

theorem parseLoop_failureCount (v : Capsule → Bool) (b : List Nat) :
    failureCount (parseLoop v b).2.1 = (if (parseLoop v b).2.2 then 1 else 0) :=
  parseLoopF_failureCount v (b.length + 1) b

theorem ingest_errored {v : Capsule → Bool} {st : ParserState}
    {frag : List Nat} (h : st.parsing_error_occurred = true) :
    ingestCapsuleFragment v st frag = (false, st, []) := by
  unfold ingestCapsuleFragment
  rw [if_pos h]

theorem errorIf_errored {st : ParserState}
    (h : st.parsing_error_occurred = true) :
    errorIfThereIsRemainingBufferedData st = (st, []) := by
  unfold errorIfThereIsRemainingBufferedData
  rw [if_pos h]

theorem failureCount_single_failure (m : String) :
    failureCount [Event.onParseFailure m] = 1 := rfl

/-- An ingest call from a clean state either succeeds with no failure
event and a clean resulting state, or fails with exactly one failure
event and a failed resulting state. -/
theorem ingest_failure_summary (v : Capsule → Bool) (st : ParserState)
    (frag : List Nat) (hok : st.parsing_error_occurred = false) :
    ((ingestCapsuleFragment v st frag).1 = true →
      (ingestCapsuleFragment v st frag).2.1.parsing_error_occurred = false ∧
      failureCount (ingestCapsuleFragment v st frag).2.2 = 0) ∧
    ((ingestCapsuleFragment v st frag).1 = false →
      (ingestCapsuleFragment v st frag).2.1.parsing_error_occurred = true ∧
      failureCount (ingestCapsuleFragment v st frag).2.2 = 1) := by
  unfold ingestCapsuleFragment
  rw [if_neg (by simp [hok])]
  have hfc := parseLoop_failureCount v (st.buffered_data ++ frag)
  by_cases h2 : (parseLoop v (st.buffered_data ++ frag)).2.2
  · rw [if_pos h2] at hfc
    simp [h2, hfc]
  · rw [if_neg h2] at hfc
    by_cases h3 : (parseLoop v (st.buffered_data ++ frag)).1.length > 1024 * 1024
    · simp [h2, h3, hfc, failureCount_append, failureCount_single_failure]
    · simp [h2, h3, hfc]

theorem errorIf_summary (st : ParserState)
    (hok : st.parsing_error_occurred = false) :
    ((errorIfThereIsRemainingBufferedData st).1.parsing_error_occurred = false ∧
      failureCount (errorIfThereIsRemainingBufferedData st).2 = 0) ∨
    ((errorIfThereIsRemainingBufferedData st).1.parsing_error_occurred = true ∧
      failureCount (errorIfThereIsRemainingBufferedData st).2 = 1) := by
  unfold errorIfThereIsRemainingBufferedData
  rw [if_neg (by simp [hok])]
  by_cases hb : st.buffered_data = []
  · left
    simp [hb, hok, failureCount]
  · right
    simp [hb, failureCount]

/-- Over any sequence of API calls, a parser that starts failed emits no
events at all, and a fresh parser emits at most one failure event. -/
theorem runCalls_failure_bound (v : Capsule → Bool) :
    ∀ (calls : List ApiCall) (st : ParserState),
      (st.parsing_error_occurred = true →
        failureCount (runCalls v st calls).2 = 0) ∧
      (st.parsing_error_occurred = false →
        failureCount (runCalls v st calls).2 ≤ 1) := by
  intro calls
  induction calls with
  | nil => intro st; simp [runCalls, failureCount]
  | cons a rest ih =>
    intro st
    cases a with
    | ingest f =>
      constructor
      · intro herr
        simp only [runCalls]
        rw [ingest_errored herr]
        simp only [failureCount_append]
        rw [(ih st).1 herr]
        simp [failureCount]
      · intro hok
        simp only [runCalls, failureCount_append]
        have hsum := ingest_failure_summary v st f hok
        by_cases hr1 : (ingestCapsuleFragment v st f).1 = true
        · obtain ⟨hst, hcnt⟩ := hsum.1 hr1
          have := (ih (ingestCapsuleFragment v st f).2.1).2 hst
          omega
        · obtain ⟨hst, hcnt⟩ := hsum.2 (by simpa using hr1)
          have := (ih (ingestCapsuleFragment v st f).2.1).1 hst
          omega
    | checkEnd =>
      constructor
      · intro herr
        simp only [runCalls]
        rw [errorIf_errored herr]
        simp only [failureCount_append]
        rw [(ih st).1 herr]
        simp [failureCount]
      · intro hok
        simp only [runCalls, failureCount_append]
        rcases errorIf_summary st hok with ⟨hst, hcnt⟩ | ⟨hst, hcnt⟩
        · have := (ih (errorIfThereIsRemainingBufferedData st).1).2 hst
          omega
        · have := (ih (errorIfThereIsRemainingBufferedData st).1).1 hst
          omega

/-- C3: Buffer cap.  For an ingest call from a clean state whose drain
loop ends without a parse error: the drained events contain no failure;
if the residual buffered data exceeds 1048576 bytes the parser clears its
buffer, appends exactly one OnCapsuleParseFailure with "Refusing to
buffer too much capsule data", transitions to the failed state, and
ingest returns false; if the residual is at most 1048576 bytes ingest
returns true with the residual kept. -/
theorem ingest_buffer_cap (v : Capsule → Bool) (st : ParserState)
    (frag : List Nat) (hok : st.parsing_error_occurred = false)
    (hnofail : (parseLoop v (st.buffered_data ++ frag)).2.2 = false) :
    failureCount (parseLoop v (st.buffered_data ++ frag)).2.1 = 0 ∧
    ((parseLoop v (st.buffered_data ++ frag)).1.length > 1048576 →
      ingestCapsuleFragment v st frag =
        (false, ⟨[], true⟩,
          (parseLoop v (st.buffered_data ++ frag)).2.1 ++
            [Event.onParseFailure "Refusing to buffer too much capsule data"])) ∧
    ((parseLoop v (st.buffered_data ++ frag)).1.length ≤ 1048576 →
      ingestCapsuleFragment v st frag =
        (true, ⟨(parseLoop v (st.buffered_data ++ frag)).1, false⟩,
          (parseLoop v (st.buffered_data ++ frag)).2.1)) := by
  have hfc := parseLoop_failureCount v (st.buffered_data ++ frag)
  rw [hnofail] at hfc
  refine ⟨by simpa using hfc, fun hcap => ?_, fun hcap => ?_⟩
  · unfold ingestCapsuleFragment
    rw [if_neg (by simp [hok])]
    rw [if_neg (by simp [hnofail])]
    rw [if_pos (by omega)]
  · unfold ingestCapsuleFragment
    rw [if_neg (by simp [hok])]
    rw [if_neg (by simp [hnofail])]
    rw [if_neg (by omega)]

/-- Witness for C3 on the no-cap side: a lone type byte stays buffered. -/
theorem ingest_buffer_cap_witness :
    ingestCapsuleFragment acceptAll freshParser [0] =
      (true, ⟨[0], false⟩, []) := by
  rw [(ingest_buffer_cap acceptAll freshParser [0] rfl (by decide)).2.2
    (by decide)]
  decide

/-- C4 counterexample: after the incomplete-at-end failure the internal
buffer is not cleared — a subsequent ingest returns false but the parser
still holds the residual byte, contradicting "the internal buffer is
cleared". -/
theorem sticky_failure_buffer_cex :
    errorIfThereIsRemainingBufferedData
        ((ingestCapsuleFragment acceptAll freshParser [0]).2.1) =
      (⟨[0], true⟩,
        [Event.onParseFailure
          "Incomplete capsule left at the end of the stream"]) ∧
    ingestCapsuleFragment acceptAll ⟨[0], true⟩ [1] =
      (false, ⟨[0], true⟩, []) ∧
    (⟨[0], true⟩ : ParserState).buffered_data ≠ [] := by decide

/-- C4 (amended): sticky failure.  Once the parser is in the failed
state, every subsequent IngestCapsuleFragment returns false immediately
without reading its argument and without modifying the buffer (the buffer
was cleared at failure time only for failures reported during ingest),
ErrorIfThereIsRemainingBufferedData is a no-op, neither OnCapsule nor
OnCapsuleParseFailure is invoked again, and over any whole parser
lifetime OnCapsuleParseFailure is invoked at most once. -/
theorem sticky_failure_after_error (v : Capsule → Bool) (st : ParserState)
    (frag : List Nat) (calls : List ApiCall)
    (hfail : st.parsing_error_occurred = true) :
    ingestCapsuleFragment v st frag = (false, st, []) ∧
    errorIfThereIsRemainingBufferedData st = (st, []) ∧
    failureCount (runCalls v freshParser calls).2 ≤ 1 :=
  ⟨ingest_errored hfail, errorIf_errored hfail,
    (runCalls_failure_bound v calls freshParser).2 rfl⟩

/-- Witness for C4 on a concrete failed state and call sequence. -/
theorem sticky_failure_after_error_witness :
    ingestCapsuleFragment acceptAll ⟨[2, 3], true⟩ [9] =
      (false, ⟨[2, 3], true⟩, []) ∧
    errorIfThereIsRemainingBufferedData ⟨[2, 3], true⟩ =
      (⟨[2, 3], true⟩, []) ∧
    failureCount (runCalls acceptAll freshParser
      [ApiCall.ingest [0], ApiCall.checkEnd, ApiCall.ingest [5]]).2 ≤ 1 :=
  sticky_failure_after_error acceptAll ⟨[2, 3], true⟩ [9]
    [ApiCall.ingest [0], ApiCall.checkEnd, ApiCall.ingest [5]] rfl

theorem residualOf_cons (b : List Nat) (bs : List (List Nat)) (p : List Nat) :
    residualOf (b :: bs) p =
      if p.length < b.length then p else residualOf bs (p.drop b.length) := rfl

theorem residualOf_append :
    ∀ (bl1 bl2 : List (List Nat)) (q : List Nat),
      residualOf (bl1 ++ bl2) (bl1.flatten ++ q) = residualOf bl2 q := by
  intro bl1
  induction bl1 with
  | nil => intro bl2 q; simp
  | cons b bs ih =>
    intro bl2 q
    show residualOf (b :: (bs ++ bl2)) ((b :: bs).flatten ++ q) = _
    rw [List.flatten_cons, List.append_assoc, residualOf_cons]
    rw [if_neg (by simp only [List.length_append]; omega), List.drop_left]
    exact ih bl2 q

/-- The buffered tail `t` is stuck with respect to the remaining stream:
either the stream is exhausted and the buffer empty, or the buffer is a
strict proper part of the next capsule serialization. -/
def StuckFor (t : List Nat) (cs : List Capsule)
    (blocks : List (List Nat)) : Prop :=
  (cs = [] ∧ blocks = [] ∧ t = []) ∨
  (∃ c cs2 b bl2, cs = c :: cs2 ∧ blocks = b :: bl2 ∧
    (∃ u, t ++ u = b) ∧ t.length < b.length)

theorem stuck_attempt {t : List Nat} {cs : List Capsule}
    {blocks : List (List Nat)} (v : Capsule → Bool)
    (hser : List.Forall₂
      (fun c bl => serializeCapsuleWithStatus c = some bl) cs blocks)
    (h : StuckFor t cs blocks) :
    attemptParseCapsule v t = ⟨0, [], false⟩ := by
  rcases h with ⟨-, -, ht⟩ | ⟨c, cs2, b, bl2, hcs, hbl, ⟨u, hu⟩, hlt⟩
  · subst ht
    rfl
  · subst hcs
    subst hbl
    cases hser with
    | cons hcb htail => exact attemptParseCapsule_short v hcb hu hlt

theorem stuck_residual {t : List Nat} {cs : List Capsule}
    {blocks : List (List Nat)} (h : StuckFor t cs blocks) :
    residualOf blocks t = t := by
  rcases h with ⟨-, hbl, -⟩ | ⟨c, cs2, b, bl2, hcs, hbl, -, hlt⟩
  · subst hbl
    rfl
  · subst hbl
    rw [residualOf_cons, if_pos hlt]

theorem stuckFor_nil {cs : List Capsule} {blocks : List (List Nat)}
    (hser : List.Forall₂
      (fun c bl => serializeCapsuleWithStatus c = some bl) cs blocks) :
    StuckFor [] cs blocks := by
  cases hser with
  | nil => exact Or.inl ⟨rfl, rfl, rfl⟩
  | cons hcb htail =>
    rename_i c b cs2 bl2
    right
    refine ⟨c, cs2, b, bl2, rfl, rfl, ⟨b, by simp⟩, ?_⟩
    have hne := serializeCapsuleWithStatus_ne_nil hcb
    cases b with
    | nil => exact absurd rfl hne
    | cons x xs => simp

/-- Any byte prefix of a serialized capsule stream splits into whole
leading capsules plus a stuck tail. -/
theorem stream_split :
    ∀ (cs : List Capsule) (blocks : List (List Nat)),
      List.Forall₂
        (fun c bl => serializeCapsuleWithStatus c = some bl) cs blocks →
      ∀ p u, p ++ u = blocks.flatten →
      ∃ cs1 cs2 bl1 bl2 t,
        cs = cs1 ++ cs2 ∧ blocks = bl1 ++ bl2 ∧
        List.Forall₂
          (fun c bl => serializeCapsuleWithStatus c = some bl) cs1 bl1 ∧
        List.Forall₂
          (fun c bl => serializeCapsuleWithStatus c = some bl) cs2 bl2 ∧
        p = bl1.flatten ++ t ∧ StuckFor t cs2 bl2 := by
  intro cs blocks hser
  induction hser with
  | nil =>
    intro p u hp
    simp only [List.flatten_nil] at hp
    have hp0 : p = [] := by
      cases p with
      | nil => rfl
      | cons x xs => simp at hp
    refine ⟨[], [], [], [], [], by simp, by simp, .nil, .nil, by simp [hp0],
      Or.inl ⟨rfl, rfl, rfl⟩⟩
  | cons hcb htail ih =>
    rename_i c b cs2 bl2
    intro p u hp
    rw [List.flatten_cons] at hp
    by_cases hle : p.length < b.length
    · obtain ⟨e, he1, he2⟩ := append_eq_split hp.symm (by omega)
      refine ⟨[], c :: cs2, [], b :: bl2, p, by simp, by simp, .nil,
        .cons hcb htail, by simp,
        Or.inr ⟨c, cs2, b, bl2, rfl, rfl, ⟨e, he1.symm⟩, hle⟩⟩
    · push_neg at hle
      obtain ⟨p2, hp2, hp2u⟩ := append_eq_split hp hle
      obtain ⟨cs1', cs2', bl1', bl2', t, hc, hb, hf1, hf2, hpe, hstuck⟩ :=
        ih p2 u hp2u
      refine ⟨c :: cs1', cs2', b :: bl1', bl2', t, by simp [hc], by simp [hb],
        .cons hcb hf1, hf2, ?_, hstuck⟩
      rw [hp2, hpe, List.flatten_cons, List.append_assoc]

/-- Feeding the remaining fragments of a capsule stream to a parser whose
buffer holds the stuck tail of the consumed prefix: every ingest returns
true, the stream's capsules are delivered in order, and the parser ends
clean and empty — provided the residual stays within the buffer cap at
every step. -/
theorem ingestAll_stream (v : Capsule → Bool) :
    ∀ (frags : List (List Nat)) (cs : List Capsule)
      (blocks : List (List Nat)) (t : List Nat),
      List.Forall₂
        (fun c bl => serializeCapsuleWithStatus c = some bl) cs blocks →
      (∀ c ∈ cs, c.wfb = true) → (∀ c ∈ cs, v c = true) →
      t ++ frags.flatten = blocks.flatten →
      StuckFor t cs blocks →
      (∀ i, (residualOf blocks (t ++ (frags.take i).flatten)).length ≤
        1024 * 1024) →
      ingestAll v ⟨t, false⟩ frags =
        (true, ⟨[], false⟩, cs.map Event.onCapsule) := by
  intro frags
  induction frags with
  | nil =>
    intro cs blocks t hser hwf hv hstream hstuck hcap
    rcases hstuck with ⟨hcs, hbl, ht⟩ | ⟨c, cs2, b, bl2, hcs, hbl, -, hlt⟩
    · subst hcs
      subst ht
      simp [ingestAll]
    · exfalso
      subst hbl
      simp only [List.flatten_nil, List.append_nil, List.flatten_cons] at hstream
      have := congrArg List.length hstream
      simp only [List.length_append] at this
      omega
  | cons f fs ih =>
    intro cs blocks t hser hwf hv hstream hstuck hcap
    have hp : (t ++ f) ++ fs.flatten = blocks.flatten := by
      rw [List.append_assoc]
      simpa using hstream
    obtain ⟨cs1, cs2, bl1, bl2, t2, hc, hb, hf1, hf2, hpe, hstuck2⟩ :=
      stream_split cs blocks hser (t ++ f) fs.flatten hp
    have hwf1 : ∀ c ∈ cs1, c.wfb = true := fun c hm =>
      hwf c (by rw [hc]; exact List.mem_append_left _ hm)
    have hv1 : ∀ c ∈ cs1, v c = true := fun c hm =>
      hv c (by rw [hc]; exact List.mem_append_left _ hm)
    have hwf2 : ∀ c ∈ cs2, c.wfb = true := fun c hm =>
      hwf c (by rw [hc]; exact List.mem_append_right _ hm)
    have hv2 : ∀ c ∈ cs2, v c = true := fun c hm =>
      hv c (by rw [hc]; exact List.mem_append_right _ hm)
    have hstuck_att : attemptParseCapsule v t2 = ⟨0, [], false⟩ :=
      stuck_attempt v hf2 hstuck2
    have hloop0 := parseLoop_drain v cs1 bl1 hf1 hwf1 hv1 t2 hstuck_att
    have hloop : parseLoop v (t ++ f) = (t2, cs1.map Event.onCapsule, false) := by
      rw [hpe]
      exact hloop0
    have hres : residualOf blocks (t ++ f) = t2 := by
      rw [hb, hpe, residualOf_append]
      exact stuck_residual hstuck2
    have hcap1 : t2.length ≤ 1024 * 1024 := by
      have h1 := hcap 1
      have h2 : List.take 1 (f :: fs) = [f] := rfl
      rw [h2] at h1
      have h3 : ([f] : List (List Nat)).flatten = f := by simp
      rw [h3, hres] at h1
      exact h1
    have hing : ingestCapsuleFragment v ⟨t, false⟩ f =
        (true, ⟨t2, false⟩, cs1.map Event.onCapsule) := by
      unfold ingestCapsuleFragment
      rw [if_neg (by simp)]
      show (if (parseLoop v (t ++ f)).2.2 then _
        else if (parseLoop v (t ++ f)).1.length > 1024 * 1024 then _ else _) = _
      rw [hloop]
      rw [if_neg (by simp)]
      rw [if_neg (by simp; omega)]
    have hstream2 : t2 ++ fs.flatten = bl2.flatten := by
      have h4 : blocks.flatten = bl1.flatten ++ bl2.flatten := by
        rw [hb, List.flatten_append]
      have h5 : bl1.flatten ++ (t2 ++ fs.flatten) =
          bl1.flatten ++ bl2.flatten := by
        rw [← List.append_assoc, ← hpe, hp, h4]
      simpa using h5
    have hcap2 : ∀ i,
        (residualOf bl2 (t2 ++ (fs.take i).flatten)).length ≤ 1024 * 1024 := by
      intro i
      have h1 := hcap (i + 1)
      have h2 : List.take (i + 1) (f :: fs) = f :: List.take i fs := rfl
      rw [h2, List.flatten_cons, ← List.append_assoc, hpe,
        List.append_assoc, hb, residualOf_append] at h1
      exact h1
    have hrec := ih cs2 bl2 t2 hf2 hwf2 hv2 hstream2 hstuck2 hcap2
    show (let r := ingestCapsuleFragment v ⟨t, false⟩ f
      let q := ingestAll v r.2.1 fs
      (r.1 && q.1, q.2.1, r.2.2 ++ q.2.2)) = _
    rw [hing]
    dsimp only
    rw [hrec]
    simp [hc]

/-- C2 (amended): fragmentation invariance under the buffer cap.  For any
byte sequence that is the concatenation of the serializations of capsules
c1…cn and any partition of it into fragments whose intermediate residuals
(the bytes past the last complete capsule boundary after each fragment)
never exceed 1048576 bytes, ingesting the fragments in order on a fresh
parser delivers exactly c1…cn, every ingest returns true, and
OnCapsuleParseFailure is never invoked; a short read of the type varint
or of the length-plus-payload consumes zero bytes and leaves the buffered
data to be re-read. -/
theorem fragmentation_invariance_bounded (v : Capsule → Bool)
    (cs : List Capsule) (blocks frags : List (List Nat))
    (hser : List.Forall₂
      (fun c bl => serializeCapsuleWithStatus c = some bl) cs blocks)
    (hwf : ∀ c ∈ cs, c.wfb = true) (hv : ∀ c ∈ cs, v c = true)
    (hS : frags.flatten = blocks.flatten)
    (hcap : ∀ i,
      (residualOf blocks ((frags.take i).flatten)).length ≤ 1048576) :
    ingestAll v freshParser frags =
      (true, freshParser, cs.map Event.onCapsule) := by
  have h := ingestAll_stream v frags cs blocks [] hser hwf hv
    (by simpa using hS) (stuckFor_nil hser)
    (by intro i; have := hcap i; simpa using this)
  simpa [freshParser] using h

/-- Witness for C2: two datagrams split across three fragments. -/
theorem fragmentation_invariance_bounded_witness :
    ingestAll acceptAll freshParser [[0], [1, 7, 0], [0]] =
      (true, freshParser,
        [Event.onCapsule (Capsule.datagram [7]),
          Event.onCapsule (Capsule.datagram [])]) := by
  have h := fragmentation_invariance_bounded acceptAll
    [Capsule.datagram [7], Capsule.datagram []] [[0, 1, 7], [0, 0]]
    [[0], [1, 7, 0], [0]]
    (.cons (by decide) (.cons (by decide) .nil))
    (by decide) (fun c _ => rfl) (by decide)
    (by
      intro i
      cases i with
      | zero => decide
      | succ i =>
        cases i with
        | zero => decide
        | succ i =>
          cases i with
          | zero => decide
          | succ n =>
            rw [List.take_of_length_le (by simp)]
            decide)
  simpa using h

/-- Serialization of a datagram whose payload is 1048575 bytes long,
kept symbolic in the payload so that no large list is ever evaluated. -/
theorem serializeCapsuleWithStatus_datagram_1048575 (p : List Nat)
    (h : p.length = 1048575) :
    serializeCapsuleWithStatus (Capsule.datagram p) =
      some (0 :: (beBytes 4 (2 ^ 31 + 1048575) ++ p)) := by
  unfold serializeCapsuleWithStatus serializeCapsulePayload
  dsimp only
  rw [h]
  norm_num [writeVarInt62, Capsule.typeCode, kDATAGRAM, beBytes]

/-- The oversized datagram used in the C2 counterexample: its declared
payload is one byte short of filling the buffer cap header-inclusive. -/
def bigPayload : List Nat := List.replicate 1048575 0

/-- The serialization of `Capsule.datagram bigPayload`. -/
def bigStream : List Nat :=
  0 :: (beBytes 4 (2 ^ 31 + 1048575) ++ bigPayload)

/-- C2 counterexample: the claim as stated fails without a size proviso.
`bigStream` is the serialization of a single capsule; partitioning it
into its first 1048577 bytes and the remainder makes the first ingest
call return false with the buffer-cap failure, so not every partition of
a capsule stream is ingested cleanly. -/
theorem fragmentation_unbounded_cex :
    serializeCapsuleWithStatus (Capsule.datagram bigPayload) =
      some bigStream ∧
    bigStream.take 1048577 ++ bigStream.drop 1048577 = bigStream ∧
    (ingestCapsuleFragment acceptAll freshParser
      (bigStream.take 1048577)).1 = false ∧
    failureCount (ingestCapsuleFragment acceptAll freshParser
      (bigStream.take 1048577)).2.2 = 1 := by
  have hpl : bigPayload.length = 1048575 := by
    show (List.replicate 1048575 0).length = 1048575
    exact List.length_replicate 1048575 0
  have hser : serializeCapsuleWithStatus (Capsule.datagram bigPayload) =
      some bigStream := by
    have h0 := serializeCapsuleWithStatus_datagram_1048575 bigPayload hpl
    show _ = some bigStream
    unfold bigStream
    exact h0
  have hlen : bigStream.length = 1048580 := by
    show (0 :: (beBytes 4 (2 ^ 31 + 1048575) ++ bigPayload)).length = 1048580
    rw [List.length_cons, List.length_append, beBytes_length, hpl]
  have hplen : (bigStream.take 1048577).length = 1048577 := by
    rw [List.length_take, hlen]
    omega
  have hpre : bigStream.take 1048577 ++ bigStream.drop 1048577 = bigStream :=
    List.take_append_drop _ _
  have hshort := attemptParseCapsule_short acceptAll hser hpre (by omega)
  have hloop : parseLoop acceptAll (bigStream.take 1048577) =
      (bigStream.take 1048577, [], false) := by
    rw [parseLoop_eq]
    simp [hshort]
  have hing : ingestCapsuleFragment acceptAll freshParser
      (bigStream.take 1048577) =
      (false, ⟨[], true⟩,
        [Event.onParseFailure "Refusing to buffer too much capsule data"]) := by
    unfold ingestCapsuleFragment
    rw [if_neg (by simp [freshParser])]
    show (if (parseLoop acceptAll (freshParser.buffered_data ++
        bigStream.take 1048577)).2.2 then _
      else if (parseLoop acceptAll (freshParser.buffered_data ++
        bigStream.take 1048577)).1.length > 1024 * 1024 then _ else _) = _
    have hfb : freshParser.buffered_data ++ bigStream.take 1048577 =
        bigStream.take 1048577 := by simp [freshParser]
    rw [hfb, hloop]
    rw [if_neg (by simp)]
    rw [if_pos (by simp [hplen])]
    rfl
  refine ⟨hser, hpre, ?_, ?_⟩
  · rw [hing]
  · rw [hing]
    rfl

theorem writeVar_eq {val : Nat} (h : val < 2 ^ 62) :
    writeVarInt62 val = some (writeVar val) := by
  obtain ⟨b, hb⟩ := writeVarInt62_isSome h
  simp [writeVar, hb]

/-- A PrefixWithId element whose family byte is neither 4 nor 6 fails at
the family check. -/
theorem parseOnePrefixWithId_bad_family (name : String) {rid f : Nat}
    {ridb : List Nat} (junk : List Nat)
    (hrid : writeVarInt62 rid = some ridb) (hf : f < 256) (hf4 : f ≠ 4)
    (hf6 : f ≠ 6) :
    parseOnePrefixWithId name (ridb ++ f :: junk) =
      .error ("Bad " ++ name ++ " family") := by
  have hf256 : f % 256 = f := Nat.mod_eq_of_lt hf
  unfold parseOnePrefixWithId
  rw [readVarInt62_write hrid]
  dsimp only
  rw [readUInt8_cons]
  dsimp only
  rw [if_pos ⟨by rw [hf256]; exact hf4, by rw [hf256]; exact hf6⟩]

/-- An IpAddressRange element whose family byte is neither 4 nor 6 fails
at the family check. -/
theorem parseOneRange_bad_family {f : Nat} (junk : List Nat) (hf : f < 256)
    (hf4 : f ≠ 4) (hf6 : f ≠ 6) :
    parseOneRange (f :: junk) = .error "Bad ROUTE_ADVERTISEMENT family" := by
  have hf256 : f % 256 = f := Nat.mod_eq_of_lt hf
  unfold parseOneRange
  rw [readUInt8_cons]
  dsimp only
  rw [if_pos ⟨by rw [hf256]; exact hf4, by rw [hf256]; exact hf6⟩]

/-- An IPv4 PrefixWithId element laid out explicitly: accepted iff the
prefix length is within 32, rejected with "Invalid IP prefix length"
otherwise. -/
theorem parseOnePrefixWithId_explicit4 (name : String) {rid : Nat}
    {ridb : List Nat} (hrid : writeVarInt62 rid = some ridb) (a : List Nat)
    (h4 : a.length = 4) (pl : Nat) (hpl : pl < 256) (rest : List Nat) :
    parseOnePrefixWithId name (ridb ++ 4 :: (a ++ pl :: rest)) =
      (if pl > 32 then .error "Invalid IP prefix length"
       else .ok (⟨rid, ⟨a, pl⟩⟩, rest)) := by
  have hsp : readStringPiece 4 (a ++ pl :: rest) = some (a, pl :: rest) := by
    rw [show (4 : Nat) = a.length from h4.symm]
    exact readStringPiece_exact a (pl :: rest)
  have hfp : fromPackedString a = some a := by
    unfold fromPackedString
    rw [if_pos (Or.inl h4)]
  have hw : familyWidth a = 32 := by simp [familyWidth, h4]
  have hpl256 : pl % 256 = pl := Nat.mod_eq_of_lt hpl
  by_cases hgt : pl > 32
  · simp [parseOnePrefixWithId, readVarInt62_write hrid, readUInt8_cons,
      hsp, hfp, hw, hpl256, hgt]
  · simp [parseOnePrefixWithId, readVarInt62_write hrid, readUInt8_cons,
      hsp, hfp, hw, hpl256, hgt]

/-- An IPv6 PrefixWithId element laid out explicitly. -/
theorem parseOnePrefixWithId_explicit16 (name : String) {rid : Nat}
    {ridb : List Nat} (hrid : writeVarInt62 rid = some ridb) (a : List Nat)
    (h16 : a.length = 16) (pl : Nat) (hpl : pl < 256) (rest : List Nat) :
    parseOnePrefixWithId name (ridb ++ 6 :: (a ++ pl :: rest)) =
      (if pl > 128 then .error "Invalid IP prefix length"
       else .ok (⟨rid, ⟨a, pl⟩⟩, rest)) := by
  have hsp : readStringPiece 16 (a ++ pl :: rest) = some (a, pl :: rest) := by
    rw [show (16 : Nat) = a.length from h16.symm]
    exact readStringPiece_exact a (pl :: rest)
  have hfp : fromPackedString a = some a := by
    unfold fromPackedString
    rw [if_pos (Or.inr h16)]
  have hw : familyWidth a = 128 := by simp [familyWidth, h16]
  have hpl256 : pl % 256 = pl := Nat.mod_eq_of_lt hpl
  by_cases hgt : pl > 128
  · simp [parseOnePrefixWithId, readVarInt62_write hrid, readUInt8_cons,
      hsp, hfp, hw, hpl256, hgt]
  · simp [parseOnePrefixWithId, readVarInt62_write hrid, readUInt8_cons,
      hsp, hfp, hw, hpl256, hgt]

/-- An explicitly laid out IPv4 IpAddressRange element parses with 4-byte
start and end addresses. -/
theorem parseOneRange_explicit4 (s e : List Nat) (h4s : s.length = 4)
    (h4e : e.length = 4) (proto : Nat) (hp : proto < 256) (rest : List Nat) :
    parseOneRange (4 :: (s ++ (e ++ proto :: rest))) =
      .ok (⟨s, e, proto⟩, rest) := by
  have hsp1 : readStringPiece 4 (s ++ (e ++ proto :: rest)) =
      some (s, e ++ proto :: rest) := by
    rw [show (4 : Nat) = s.length from h4s.symm]
    exact readStringPiece_exact s (e ++ proto :: rest)
  have hsp2 : readStringPiece 4 (e ++ proto :: rest) =
      some (e, proto :: rest) := by
    rw [show (4 : Nat) = e.length from h4e.symm]
    exact readStringPiece_exact e (proto :: rest)
  have hfp1 : fromPackedString s = some s := by
    unfold fromPackedString
    rw [if_pos (Or.inl h4s)]
  have hfp2 : fromPackedString e = some e := by
    unfold fromPackedString
    rw [if_pos (Or.inl h4e)]
  have hpr : proto % 256 = proto := Nat.mod_eq_of_lt hp
  simp [parseOneRange, readUInt8_cons, hsp1, hsp2, hfp1, hfp2, hpr]

/-- An explicitly laid out IPv6 IpAddressRange element parses with
16-byte start and end addresses. -/
theorem parseOneRange_explicit16 (s e : List Nat) (h16s : s.length = 16)
    (h16e : e.length = 16) (proto : Nat) (hp : proto < 256) (rest : List Nat) :
    parseOneRange (6 :: (s ++ (e ++ proto :: rest))) =
      .ok (⟨s, e, proto⟩, rest) := by
  have hsp1 : readStringPiece 16 (s ++ (e ++ proto :: rest)) =
      some (s, e ++ proto :: rest) := by
    rw [show (16 : Nat) = s.length from h16s.symm]
    exact readStringPiece_exact s (e ++ proto :: rest)
  have hsp2 : readStringPiece 16 (e ++ proto :: rest) =
      some (e, proto :: rest) := by
    rw [show (16 : Nat) = e.length from h16e.symm]
    exact readStringPiece_exact e (proto :: rest)
  have hfp1 : fromPackedString s = some s := by
    unfold fromPackedString
    rw [if_pos (Or.inr h16s)]
  have hfp2 : fromPackedString e = some e := by
    unfold fromPackedString
    rw [if_pos (Or.inr h16e)]
  have hpr : proto % 256 = proto := Nat.mod_eq_of_lt hp
  simp [parseOneRange, readUInt8_cons, hsp1, hsp2, hfp1, hfp2, hpr]

/-- A parse error in the element list after well-formed serialized
elements propagates out of the whole-list parse. -/
theorem parsePrefixList_error_tail (name : String) {ps : List PrefixWithId}
    {pbytes bad : List Nat} {msg : String}
    (hwf : ∀ p ∈ ps, p.wfb = true) (hs : serializePrefixList ps = some pbytes)
    (hbadne : bad ≠ []) (hbad : parseOnePrefixWithId name bad = .error msg) :
    parsePrefixList name (pbytes ++ bad) = .error msg := by
  have h1 : parsePrefixList name bad = .error msg := by
    rw [parsePrefixList_eq, if_neg hbadne, hbad]
  rw [parsePrefixList_serialize_append name ps pbytes bad hwf hs, h1]

theorem parseRangeList_error_tail {rs : List IpAddressRange}
    {bad : List Nat} {msg : String}
    (hwf : ∀ r ∈ rs, r.wfb = true) (hbadne : bad ≠ [])
    (hbad : parseOneRange bad = .error msg) :
    parseRangeList (serializeRangeList rs ++ bad) = .error msg := by
  have h1 : parseRangeList bad = .error msg := by
    rw [parseRangeList_eq, if_neg hbadne, hbad]
  rw [parseRangeList_serialize_append rs bad hwf, h1]

/-- A wire capsule whose payload fails to parse: the attempt consumes
nothing, reports the message, and fails. -/
theorem attemptParseCapsule_error {tcode : Nat} {tb lb P : List Nat}
    {msg : String} (v : Capsule → Bool)
    (htb : writeVarInt62 tcode = some tb)
    (hlb : writeVarInt62 P.length = some lb)
    (hperr : parseCapsulePayload tcode P = .error msg) (rest : List Nat) :
    attemptParseCapsule v (tb ++ (lb ++ (P ++ rest))) =
      ⟨0, [.onParseFailure msg], true⟩ := by
  have hne : tb ++ (lb ++ (P ++ rest)) ≠ [] := by
    obtain ⟨b0, brest, rfl, -⟩ := writeVarInt62_shape htb
    simp
  unfold attemptParseCapsule
  rw [if_neg hne, readVarInt62_write htb]
  dsimp only
  rw [readStringPieceVarInt62_write hlb P rest rfl]
  dsimp only
  rw [hperr]

/-- Ingesting one wire capsule with an unparseable payload into a fresh
parser: one failure event with the message, failed cleared state, false. -/
theorem ingest_payload_error {tcode : Nat} {tb lb P : List Nat}
    {msg : String} (v : Capsule → Bool)
    (htb : writeVarInt62 tcode = some tb)
    (hlb : writeVarInt62 P.length = some lb)
    (hperr : parseCapsulePayload tcode P = .error msg) :
    ingestCapsuleFragment v freshParser (tb ++ (lb ++ P)) =
      (false, ⟨[], true⟩, [.onParseFailure msg]) := by
  have hatt := attemptParseCapsule_error v htb hlb hperr []
  rw [List.append_nil] at hatt
  have hloop : parseLoop v (tb ++ (lb ++ P)) =
      (tb ++ (lb ++ P), [.onParseFailure msg], true) := by
    rw [parseLoop_eq, hatt]
    simp
  simp only [ingestCapsuleFragment, freshParser, List.nil_append]
  rw [hloop]
  simp

theorem parseCapsulePayload_addressRequest {P : List Nat} :
    parseCapsulePayload kADDRESS_REQUEST P =
      (parsePrefixList "ADDRESS_REQUEST" P).map Capsule.addressRequest := by
  unfold parseCapsulePayload
  norm_num [kADDRESS_REQUEST, kDATAGRAM, kLEGACY_DATAGRAM,
    kLEGACY_DATAGRAM_WITHOUT_CONTEXT, kCLOSE_WEBTRANSPORT_SESSION]

theorem parseCapsulePayload_addressAssign {P : List Nat} :
    parseCapsulePayload kADDRESS_ASSIGN P =
      (parsePrefixList "ADDRESS_ASSIGN" P).map Capsule.addressAssign := by
  unfold parseCapsulePayload
  norm_num [kADDRESS_REQUEST, kADDRESS_ASSIGN, kDATAGRAM, kLEGACY_DATAGRAM,
    kLEGACY_DATAGRAM_WITHOUT_CONTEXT, kCLOSE_WEBTRANSPORT_SESSION]

theorem parseCapsulePayload_routeAdvertisement {P : List Nat} :
    parseCapsulePayload kROUTE_ADVERTISEMENT P =
      (parseRangeList P).map Capsule.routeAdvertisement := by
  unfold parseCapsulePayload
  norm_num [kADDRESS_REQUEST, kADDRESS_ASSIGN, kROUTE_ADVERTISEMENT,
    kDATAGRAM, kLEGACY_DATAGRAM, kLEGACY_DATAGRAM_WITHOUT_CONTEXT,
    kCLOSE_WEBTRANSPORT_SESSION]

/-- C5: Family validation.  While parsing the payload of an
ADDRESS_REQUEST, ADDRESS_ASSIGN or ROUTE_ADVERTISEMENT capsule, an
element whose family byte is neither 4 nor 6 makes the parser report the
corresponding "Bad … family" failure at that element, deliver no capsule
for that record, transition to failed, and return false from ingest;
elements with family byte 4 are read as 4-byte addresses and elements
with family byte 6 as 16-byte addresses. -/
theorem family_validation (v : Capsule → Bool) (ps : List PrefixWithId)
    (pbytes : List Nat) (rs : List IpAddressRange) (rid f : Nat)
    (ridb junk : List Nat)
    (hps : serializePrefixList ps = some pbytes)
    (hpwf : ∀ p ∈ ps, p.wfb = true) (hrwf : ∀ r ∈ rs, r.wfb = true)
    (hrid : writeVarInt62 rid = some ridb)
    (hf : f < 256) (hf4 : f ≠ 4) (hf6 : f ≠ 6)
    (hlenA : (pbytes ++ (ridb ++ f :: junk)).length < 2 ^ 62)
    (hlenR : (serializeRangeList rs ++ f :: junk).length < 2 ^ 62) :
    (∀ name, parseOnePrefixWithId name (ridb ++ f :: junk) =
      .error ("Bad " ++ name ++ " family")) ∧
    parseOneRange (f :: junk) = .error "Bad ROUTE_ADVERTISEMENT family" ∧
    (∀ name a pl rest, a.length = 4 → pl ≤ 32 →
      parseOnePrefixWithId name (ridb ++ 4 :: (a ++ pl :: rest)) =
        .ok (⟨rid, ⟨a, pl⟩⟩, rest)) ∧
    (∀ name a pl rest, a.length = 16 → pl ≤ 128 →
      parseOnePrefixWithId name (ridb ++ 6 :: (a ++ pl :: rest)) =
        .ok (⟨rid, ⟨a, pl⟩⟩, rest)) ∧
    (∀ s e proto rest, s.length = 4 → e.length = 4 → proto < 256 →
      parseOneRange (4 :: (s ++ (e ++ proto :: rest))) =
        .ok (⟨s, e, proto⟩, rest)) ∧
    (∀ s e proto rest, s.length = 16 → e.length = 16 → proto < 256 →
      parseOneRange (6 :: (s ++ (e ++ proto :: rest))) =
        .ok (⟨s, e, proto⟩, rest)) ∧
    ingestCapsuleFragment v freshParser (writeVar kADDRESS_REQUEST ++
        (writeVar (pbytes ++ (ridb ++ f :: junk)).length ++
          (pbytes ++ (ridb ++ f :: junk)))) =
      (false, ⟨[], true⟩,
        [Event.onParseFailure "Bad ADDRESS_REQUEST family"]) ∧
    ingestCapsuleFragment v freshParser (writeVar kADDRESS_ASSIGN ++
        (writeVar (pbytes ++ (ridb ++ f :: junk)).length ++
          (pbytes ++ (ridb ++ f :: junk)))) =
      (false, ⟨[], true⟩,
        [Event.onParseFailure "Bad ADDRESS_ASSIGN family"]) ∧
    ingestCapsuleFragment v freshParser (writeVar kROUTE_ADVERTISEMENT ++
        (writeVar (serializeRangeList rs ++ f :: junk).length ++
          (serializeRangeList rs ++ f :: junk))) =
      (false, ⟨[], true⟩,
        [Event.onParseFailure "Bad ROUTE_ADVERTISEMENT family"]) := by
  have hbad : ∀ name, parseOnePrefixWithId name (ridb ++ f :: junk) =
      .error ("Bad " ++ name ++ " family") := fun name =>
    parseOnePrefixWithId_bad_family name junk hrid hf hf4 hf6
  have hbadr : parseOneRange (f :: junk) =
      .error "Bad ROUTE_ADVERTISEMENT family" :=
    parseOneRange_bad_family junk hf hf4 hf6
  have hbadne : (ridb ++ f :: junk) ≠ [] := by simp
  have hbadrne : (f :: junk) ≠ [] := by simp
  refine ⟨hbad, hbadr, ?_, ?_, ?_, ?_, ?_, ?_, ?_⟩
  · intro name a pl rest h4 hle
    have h := parseOnePrefixWithId_explicit4 name hrid a h4 pl (by omega) rest
    rwa [if_neg (by omega)] at h
  · intro name a pl rest h16 hle
    have h := parseOnePrefixWithId_explicit16 name hrid a h16 pl (by omega) rest
    rwa [if_neg (by omega)] at h
  · intro s e proto rest h4s h4e hp
    exact parseOneRange_explicit4 s e h4s h4e proto hp rest
  · intro s e proto rest h16s h16e hp
    exact parseOneRange_explicit16 s e h16s h16e proto hp rest
  · have hperr : parseCapsulePayload kADDRESS_REQUEST
        (pbytes ++ (ridb ++ f :: junk)) =
        .error "Bad ADDRESS_REQUEST family" := by
      rw [parseCapsulePayload_addressRequest,
        parsePrefixList_error_tail "ADDRESS_REQUEST" hpwf hps hbadne
          (hbad "ADDRESS_REQUEST")]
      rfl
    exact ingest_payload_error v (writeVar_eq (by norm_num [kADDRESS_REQUEST, kADDRESS_ASSIGN]))
      (writeVar_eq hlenA) hperr
  · have hperr : parseCapsulePayload kADDRESS_ASSIGN
        (pbytes ++ (ridb ++ f :: junk)) =
        .error "Bad ADDRESS_ASSIGN family" := by
      rw [parseCapsulePayload_addressAssign,
        parsePrefixList_error_tail "ADDRESS_ASSIGN" hpwf hps hbadne
          (hbad "ADDRESS_ASSIGN")]
      rfl
    exact ingest_payload_error v (writeVar_eq (by norm_num [kADDRESS_REQUEST, kADDRESS_ASSIGN]))
      (writeVar_eq hlenA) hperr
  · have hperr : parseCapsulePayload kROUTE_ADVERTISEMENT
        (serializeRangeList rs ++ f :: junk) =
        .error "Bad ROUTE_ADVERTISEMENT family" := by
      rw [parseCapsulePayload_routeAdvertisement,
        parseRangeList_error_tail hrwf hbadrne hbadr]
      rfl
    exact ingest_payload_error v (writeVar_eq (by norm_num [kROUTE_ADVERTISEMENT]))
      (writeVar_eq hlenR) hperr

/-- Witness for C5: a bad family byte 9 after a zero request id inside an
ADDRESS_REQUEST capsule. -/
theorem family_validation_witness :
    ingestCapsuleFragment acceptAll freshParser (writeVar kADDRESS_REQUEST ++
        (writeVar (([] : List Nat) ++ ([0] ++ 9 :: ([] : List Nat))).length ++
          (([] : List Nat) ++ ([0] ++ 9 :: ([] : List Nat))))) =
      (false, ⟨[], true⟩,
        [Event.onParseFailure "Bad ADDRESS_REQUEST family"]) := by
  have h := family_validation acceptAll [] [] [] 0 9 [0] [] rfl
    (by simp) (by simp) (by decide) (by decide) (by decide) (by decide)
    (by decide) (by decide)
  exact h.2.2.2.2.2.2.1

/-- C6: Prefix length bound.  While parsing a PrefixWithId inside an
ADDRESS_REQUEST or ADDRESS_ASSIGN capsule, a prefix_length byte above the
full width of the parsed address family (32 for a 4-byte address, 128 for
a 16-byte address) makes the parser report "Invalid IP prefix length"
and deliver no capsule for that record, and ingest returns false; a
prefix_length within the bound is accepted with exactly that value. -/
theorem prefix_length_bound (v : Capsule → Bool) (ps : List PrefixWithId)
    (pbytes : List Nat) (rid : Nat) (ridb : List Nat)
    (a4 a16 : List Nat) (pl4 pl16 : Nat) (junk : List Nat)
    (hps : serializePrefixList ps = some pbytes)
    (hpwf : ∀ p ∈ ps, p.wfb = true)
    (hrid : writeVarInt62 rid = some ridb)
    (h4 : a4.length = 4) (h16 : a16.length = 16)
    (hpl4 : pl4 < 256) (hpl16 : pl16 < 256)
    (hlen4 :
      (pbytes ++ (ridb ++ 4 :: (a4 ++ pl4 :: junk))).length < 2 ^ 62) :
    (∀ name, pl4 > 32 →
      parseOnePrefixWithId name (ridb ++ 4 :: (a4 ++ pl4 :: junk)) =
        .error "Invalid IP prefix length") ∧
    (∀ name, pl16 > 128 →
      parseOnePrefixWithId name (ridb ++ 6 :: (a16 ++ pl16 :: junk)) =
        .error "Invalid IP prefix length") ∧
    (∀ name, pl4 ≤ 32 →
      parseOnePrefixWithId name (ridb ++ 4 :: (a4 ++ pl4 :: junk)) =
        .ok (⟨rid, ⟨a4, pl4⟩⟩, junk)) ∧
    (∀ name, pl16 ≤ 128 →
      parseOnePrefixWithId name (ridb ++ 6 :: (a16 ++ pl16 :: junk)) =
        .ok (⟨rid, ⟨a16, pl16⟩⟩, junk)) ∧
    (pl4 > 32 →
      ingestCapsuleFragment v freshParser (writeVar kADDRESS_REQUEST ++
          (writeVar (pbytes ++ (ridb ++ 4 :: (a4 ++ pl4 :: junk))).length ++
            (pbytes ++ (ridb ++ 4 :: (a4 ++ pl4 :: junk))))) =
        (false, ⟨[], true⟩,
          [Event.onParseFailure "Invalid IP prefix length"])) ∧
    (pl4 > 32 →
      ingestCapsuleFragment v freshParser (writeVar kADDRESS_ASSIGN ++
          (writeVar (pbytes ++ (ridb ++ 4 :: (a4 ++ pl4 :: junk))).length ++
            (pbytes ++ (ridb ++ 4 :: (a4 ++ pl4 :: junk))))) =
        (false, ⟨[], true⟩,
          [Event.onParseFailure "Invalid IP prefix length"])) := by
  have he4 := fun name =>
    parseOnePrefixWithId_explicit4 name hrid a4 h4 pl4 hpl4 junk
  have he16 := fun name =>
    parseOnePrefixWithId_explicit16 name hrid a16 h16 pl16 hpl16 junk
  have hbadne : (ridb ++ 4 :: (a4 ++ pl4 :: junk)) ≠ [] := by simp
  refine ⟨?_, ?_, ?_, ?_, ?_, ?_⟩
  · intro name hgt
    rw [he4 name, if_pos hgt]
  · intro name hgt
    rw [he16 name, if_pos hgt]
  · intro name hle
    rw [he4 name, if_neg (by omega)]
  · intro name hle
    rw [he16 name, if_neg (by omega)]
  · intro hgt
    have hperr : parseCapsulePayload kADDRESS_REQUEST
        (pbytes ++ (ridb ++ 4 :: (a4 ++ pl4 :: junk))) =
        .error "Invalid IP prefix length" := by
      rw [parseCapsulePayload_addressRequest,
        parsePrefixList_error_tail "ADDRESS_REQUEST" hpwf hps hbadne
          (by rw [he4 "ADDRESS_REQUEST", if_pos hgt])]
      rfl
    exact ingest_payload_error v
      (writeVar_eq (by norm_num [kADDRESS_REQUEST])) (writeVar_eq hlen4) hperr
  · intro hgt
    have hperr : parseCapsulePayload kADDRESS_ASSIGN
        (pbytes ++ (ridb ++ 4 :: (a4 ++ pl4 :: junk))) =
        .error "Invalid IP prefix length" := by
      rw [parseCapsulePayload_addressAssign,
        parsePrefixList_error_tail "ADDRESS_ASSIGN" hpwf hps hbadne
          (by rw [he4 "ADDRESS_ASSIGN", if_pos hgt])]
      rfl
    exact ingest_payload_error v
      (writeVar_eq (by norm_num [kADDRESS_ASSIGN])) (writeVar_eq hlen4) hperr

/-- Witness for C6: prefix length 33 on a 4-byte address is rejected,
and 32 is accepted with exactly that length. -/
theorem prefix_length_bound_witness :
    parseOnePrefixWithId "ADDRESS_REQUEST"
        ([0] ++ 4 :: ([10, 0, 0, 1] ++ 33 :: ([] : List Nat))) =
      .error "Invalid IP prefix length" ∧
    ingestCapsuleFragment acceptAll freshParser (writeVar kADDRESS_REQUEST ++
        (writeVar (([] : List Nat) ++
          ([0] ++ 4 :: ([10, 0, 0, 1] ++ 33 :: ([] : List Nat)))).length ++
          (([] : List Nat) ++
            ([0] ++ 4 :: ([10, 0, 0, 1] ++ 33 :: ([] : List Nat)))))) =
      (false, ⟨[], true⟩,
        [Event.onParseFailure "Invalid IP prefix length"]) := by
  have h := prefix_length_bound acceptAll [] [] 0 [0] [10, 0, 0, 1]
    [0, 1, 2, 3, 4, 5, 6, 7, 8, 9, 10, 11, 12, 13, 14, 15] 33 129 []
    rfl (by simp) (by decide) (by decide) (by decide) (by decide) (by decide)
    (by decide)
  exact ⟨h.1 "ADDRESS_REQUEST" (by decide), h.2.2.2.2.1 (by decide)⟩

theorem readStringPiece_length {n : Nat} {bs s rest : List Nat}
    (h : readStringPiece n bs = some (s, rest)) : s.length = n := by
  simp only [readStringPiece] at h
  split at h
  · simp at h
  · rename_i hge
    simp only [Option.some.injEq, Prod.mk.injEq] at h
    have hs : s = bs.take n := h.1.symm
    subst hs
    rw [List.length_take]
    omega

theorem fromPackedString_some {bs a : List Nat}
    (h : fromPackedString bs = some a) : a = bs := by
  unfold fromPackedString at h
  split at h
  · simp only [Option.some.injEq] at h
    exact h.symm
  · simp at h

/-- Every range the element parser produces has start and end addresses
of the same family, both read with the single declared family byte. -/
theorem parseOneRange_family {data : List Nat} {r : IpAddressRange}
    {rest : List Nat} (h : parseOneRange data = .ok (r, rest)) :
    (r.start_ip_address.length = 4 ∧ r.end_ip_address.length = 4) ∨
    (r.start_ip_address.length = 16 ∧ r.end_ip_address.length = 16) := by
  unfold parseOneRange at h
  split at h
  · simp at h
  · rename_i fam d1 h1
    split at h
    · simp at h
    · rename_i hfam
      split at h
      · simp at h
      · rename_i sbytes d2 h2
        split at h
        · simp at h
        · rename_i saddr h3
          split at h
          · simp at h
          · rename_i ebytes d3 h4
            split at h
            · simp at h
            · rename_i eaddr h5
              split at h
              · simp at h
              · rename_i proto d4 h6
                simp only [Except.ok.injEq, Prod.mk.injEq] at h
                have hrr : r = ⟨saddr, eaddr, proto⟩ := h.1.symm
                subst hrr
                have hsl : saddr.length = (if fam = 4 then 4 else 16) := by
                  rw [fromPackedString_some h3]
                  exact readStringPiece_length h2
                have hel : eaddr.length = (if fam = 4 then 4 else 16) := by
                  rw [fromPackedString_some h5]
                  exact readStringPiece_length h4
                by_cases hfam4 : fam = 4
                · left
                  rw [if_pos hfam4] at hsl hel
                  exact ⟨hsl, hel⟩
                · right
                  rw [if_neg hfam4] at hsl hel
                  exact ⟨hsl, hel⟩

theorem parseRangeListF_family :
    ∀ (fuel : Nat) (data : List Nat) (rs : List IpAddressRange),
      parseRangeListF fuel data = .ok rs → ∀ r ∈ rs,
      (r.start_ip_address.length = 4 ∧ r.end_ip_address.length = 4) ∨
      (r.start_ip_address.length = 16 ∧ r.end_ip_address.length = 16) := by
  intro fuel
  induction fuel with
  | zero => intro data rs h; simp [parseRangeListF] at h
  | succ f ih =>
    intro data rs h
    unfold parseRangeListF at h
    split at h
    · simp only [Except.ok.injEq] at h
      subst h
      intro r hr
      simp at hr
    · cases h1 : parseOneRange data with
      | error e => rw [h1] at h; simp at h
      | ok pr =>
        obtain ⟨r0, rest⟩ := pr
        rw [h1] at h
        dsimp only at h
        cases h2 : parseRangeListF f rest with
        | error e => rw [h2] at h; simp at h
        | ok rs2 =>
          rw [h2] at h
          simp only [Except.ok.injEq] at h
          subst h
          intro r hr
          rcases List.mem_cons.mp hr with hr0 | hr2
          · subst hr0
            exact parseOneRange_family h1
          · exact ih rest rs2 h2 r hr2

theorem parseRangeList_family {data : List Nat} {rs : List IpAddressRange}
    (h : parseRangeList data = .ok rs) : ∀ r ∈ rs,
    (r.start_ip_address.length = 4 ∧ r.end_ip_address.length = 4) ∨
    (r.start_ip_address.length = 16 ∧ r.end_ip_address.length = 16) :=
  parseRangeListF_family (data.length + 1) data rs h

/-- A delivered ROUTE_ADVERTISEMENT capsule comes from a successful range
list parse. -/
theorem parseCapsulePayload_route_inv {t : Nat} {d : List Nat}
    {rs : List IpAddressRange}
    (h : parseCapsulePayload t d = .ok (Capsule.routeAdvertisement rs)) :
    parseRangeList d = .ok rs := by
  unfold parseCapsulePayload at h
  split_ifs at h
  · simp at h
  · simp at h
  · simp at h
  · split at h
    · simp at h
    · simp at h
  · cases hp : parsePrefixList "ADDRESS_REQUEST" d with
    | error e => rw [hp] at h; simp [Except.map] at h
    | ok qs => rw [hp] at h; simp [Except.map] at h
  · cases hp : parsePrefixList "ADDRESS_ASSIGN" d with
    | error e => rw [hp] at h; simp [Except.map] at h
    | ok qs => rw [hp] at h; simp [Except.map] at h
  · cases hp : parseRangeList d with
    | error e => rw [hp] at h; simp [Except.map] at h
    | ok qs =>
      rw [hp] at h
      simp only [Except.map, Except.ok.injEq, Capsule.routeAdvertisement.injEq] at h
      rw [h]
  · simp at h

/-- Every OnCapsule event of an attempt arises from a successful payload
parse. -/
theorem attempt_onCapsule_inv {v : Capsule → Bool} {b : List Nat}
    {c : Capsule}
    (h : Event.onCapsule c ∈ (attemptParseCapsule v b).events) :
    ∃ t d, parseCapsulePayload t d = .ok c := by
  unfold attemptParseCapsule at h
  by_cases hb : b = []
  · simp [hb] at h
  · rw [if_neg hb] at h
    cases h1 : readVarInt62 b with
    | none => simp [h1] at h
    | some x =>
      obtain ⟨t, r1⟩ := x
      cases h2 : readStringPieceVarInt62 r1 with
      | none => simp [h1, h2] at h
      | some y =>
        obtain ⟨cdata, r2⟩ := y
        cases h3 : parseCapsulePayload t cdata with
        | error msg => simp [h1, h2, h3] at h
        | ok c2 =>
          by_cases hv : v c2
          · simp [h1, h2, h3, hv] at h
            exact ⟨t, cdata, by rw [h]; exact h3⟩
          · simp [h1, h2, h3, hv] at h
            exact ⟨t, cdata, by rw [h]; exact h3⟩

theorem parseLoopF_onCapsule_inv (v : Capsule → Bool) :
    ∀ (fuel : Nat) (b : List Nat) (c : Capsule),
      Event.onCapsule c ∈ (parseLoopF v fuel b).2.1 →
      ∃ t d, parseCapsulePayload t d = .ok c := by
  intro fuel
  induction fuel with
  | zero => intro b c h; simp [parseLoopF] at h
  | succ f ih =>
    intro b c h
    unfold parseLoopF at h
    by_cases hf : (attemptParseCapsule v b).failed
    · simp only [hf, if_true] at h
      exact attempt_onCapsule_inv h
    · simp only [hf, Bool.false_eq_true, if_false] at h
      by_cases hc : (attemptParseCapsule v b).consumed = 0
      · simp only [hc, if_true] at h
        exact attempt_onCapsule_inv h
      · simp only [hc, if_false] at h
        rcases List.mem_append.mp h with h0 | h0
        · exact attempt_onCapsule_inv h0
        · exact ih _ c h0

/-- Every OnCapsule event of an ingest call arises from a successful
payload parse. -/
theorem ingest_onCapsule_inv {v : Capsule → Bool} {st : ParserState}
    {frag : List Nat} {c : Capsule}
    (h : Event.onCapsule c ∈ (ingestCapsuleFragment v st frag).2.2) :
    ∃ t d, parseCapsulePayload t d = .ok c := by
  unfold ingestCapsuleFragment at h
  by_cases he : st.parsing_error_occurred
  · simp [he] at h
  · rw [if_neg he] at h
    by_cases h2 : (parseLoop v (st.buffered_data ++ frag)).2.2
    · simp only [h2, if_true] at h
      exact parseLoopF_onCapsule_inv v _ _ c h
    · simp only [h2, Bool.false_eq_true, if_false] at h
      by_cases h3 :
          (parseLoop v (st.buffered_data ++ frag)).1.length > 1024 * 1024
      · simp only [h3, if_true] at h
        rcases List.mem_append.mp h with h0 | h0
        · exact parseLoopF_onCapsule_inv v _ _ c h0
        · simp at h0
      · simp only [h3, if_false] at h
        exact parseLoopF_onCapsule_inv v _ _ c h

/-- C9: Range family invariant.  Every IpAddressRange contained in a
ROUTE_ADVERTISEMENT capsule that the parser delivers to the visitor has
start and end addresses of the same family: both are read using the one
declared family byte of the element, 4 bytes each for family 4 and 16
bytes each for family 6, so the start and end families agree for all
parser-produced ranges. -/
theorem route_range_family_invariant (v : Capsule → Bool)
    (st : ParserState) (frag : List Nat) (rs : List IpAddressRange)
    (r : IpAddressRange)
    (hev : Event.onCapsule (Capsule.routeAdvertisement rs) ∈
      (ingestCapsuleFragment v st frag).2.2)
    (hr : r ∈ rs) :
    (r.start_ip_address.length = 4 ∧ r.end_ip_address.length = 4) ∨
    (r.start_ip_address.length = 16 ∧ r.end_ip_address.length = 16) := by
  obtain ⟨t, d, hok⟩ := ingest_onCapsule_inv hev
  exact parseRangeList_family (parseCapsulePayload_route_inv hok) r hr

/-- Witness for C9 on a concrete single-range ROUTE_ADVERTISEMENT. -/
theorem route_range_family_invariant_witness :
    ((⟨[1, 2, 3, 4], [5, 6, 7, 8], 17⟩ :
        IpAddressRange).start_ip_address.length = 4 ∧
      (⟨[1, 2, 3, 4], [5, 6, 7, 8], 17⟩ :
        IpAddressRange).end_ip_address.length = 4) ∨
    ((⟨[1, 2, 3, 4], [5, 6, 7, 8], 17⟩ :
        IpAddressRange).start_ip_address.length = 16 ∧
      (⟨[1, 2, 3, 4], [5, 6, 7, 8], 17⟩ :
        IpAddressRange).end_ip_address.length = 16) :=
  route_range_family_invariant acceptAll freshParser
    [0xC0, 0, 0, 0, 0x9E, 0xCA, 0x6A, 0x02, 10, 4, 1, 2, 3, 4, 5, 6, 7, 8, 17]
    [⟨[1, 2, 3, 4], [5, 6, 7, 8], 17⟩] ⟨[1, 2, 3, 4], [5, 6, 7, 8], 17⟩
    (by decide) (by decide)
